import Mathlib

/-!
# Disk sideload storage (`pkg/storage/replica_sideload_disk.go`)

A shallow embedding of `diskSideloadStorage` and of the library routines it
calls, followed by the properties proved about it.

Conventions of the embedding:
* a Go `string` is a `List Char` (`Str`), a `[]byte` a `List UInt8`;
* `uint64` values are natural numbers, with `% 2 ^ 64` written where the
  source arithmetic can wrap;
* a Go `error` result is an `Option GoError`, `none` standing for `nil`, and a
  function with several results returns a tuple in the source order.
-/

namespace Sideload

/-! ## Strings and byte slices -/

/-- A Go string. -/
abbrev Str := List Char

/-- A Go byte slice. -/
abbrev Bytes := List UInt8

/-! ## Decimal formatting and parsing (`fmt`, `strconv`) -/

/-- Largest `uint64`. -/
def maxUint64 : Nat := 2 ^ 64 - 1

/-- The ASCII digit of `d`, for `d < 10`: `byte('0' + d)`. -/
def digitChar (d : Nat) : Char := Char.ofNat (48 + d)

/-- The digit loop of `fmt` for base 10 (`for u >= 10 { next := u / 10;
buf[i] = byte('0' + u - next*10); u = next }`, then the leading digit), writing
in front of `buf`. The first argument bounds the number of iterations. -/
def fmtLoop : Nat → Nat → Str → Str
  | 0, u, buf => digitChar u :: buf
  | fuel + 1, u, buf =>
    if 10 ≤ u then fmtLoop fuel (u / 10) (digitChar (u - u / 10 * 10) :: buf)
    else digitChar u :: buf

/-- The verb `%d` at an unsigned integer. -/
def fmtUint (u : Nat) : Str := fmtLoop u u []

/-- The verb `%d` at a signed integer: a minus sign, then the magnitude. -/
def fmtInt (z : Int) : Str :=
  if z < 0 then '-' :: fmtUint z.natAbs else fmtUint z.natAbs

/-- The two errors of `strconv`. -/
inductive NumError where
  | errSyntax
  | errRange
  deriving DecidableEq, Repr

/-- The digit loop of `strconv.ParseUint(s, 10, 64)`, `n` being the value read
so far. A byte outside `'0'..'9'` is a syntax error (a letter is a digit of
value at least 10, which base 10 rejects as well), `n >= cutoff` and a sum
beyond `maxVal` are range errors. -/
def parseUintLoop : Str → Nat → Nat × Option NumError
  | [], n => (n, none)
  | c :: rest, n =>
    if '0' ≤ c ∧ c ≤ '9' then
      let d := c.toNat - 48
      if maxUint64 / 10 + 1 ≤ n then (maxUint64, some NumError.errRange)
      else
        let n10 := n * 10
        let n1 := (n10 + d) % 2 ^ 64
        if n1 < n10 ∨ maxUint64 < n1 then (maxUint64, some NumError.errRange)
        else parseUintLoop rest n1
    else (0, some NumError.errSyntax)

/-- Go `strconv.ParseUint(s, 10, 64)`. -/
def parseUint (s : Str) : Nat × Option NumError :=
  if s = [] then (0, some NumError.errSyntax) else parseUintLoop s 0

/-- First piece of `strings.SplitN(s, ".", 2)`: the text before the first dot,
all of `s` when it has none. -/
def upToDot (s : Str) : Str := s.takeWhile (fun c => c != '.')

/-! ## Pattern matching (`path/filepath.Match` at the pattern `i*.t*`) -/

/-- Go `matchChunk` at a chunk of literal characters: the rest of `s` after the
chunk, when `s` starts with it. -/
def matchChunk : Str → Str → Option Str
  | [], s => some s
  | _ :: _, [] => none
  | c :: cs, x :: xs => if c = x then matchChunk cs xs else none

/-- A chunk that follows a star: tried at the current position, then after
skipping one more character at a time, never skipping a separator. -/
def matchStar (chunk : Str) : Str → Option Str
  | [] => matchChunk chunk []
  | c :: rest =>
    match matchChunk chunk (c :: rest) with
    | some t => some t
    | none => if c = '/' then none else matchStar chunk rest

/-- Go `filepath.Match("i*.t*", name)`: the chunk `i`, the starred chunk `.t`,
and a trailing star that takes the rest unless it has a separator. -/
def matchRecordPattern (name : Str) : Bool :=
  match matchChunk ['i'] name with
  | none => false
  | some t =>
    match matchStar ['.', 't'] t with
    | none => false
    | some t2 => !t2.contains '/'

/-! ## Paths (`path/filepath`, with `/` as the separator) -/

/-- The elements of a path: the pieces between separators (`a//b` has an empty
one in the middle, `/a` an empty first one). -/
def splitSep : Str → List Str
  | [] => [[]]
  | c :: cs =>
    if c = '/' then [] :: splitSep cs
    else
      match splitSep cs with
      | [] => [[c]]
      | h :: t => (c :: h) :: t

/-- Go `strings.Join(elems, "/")`. -/
def joinSep : List Str → Str
  | [] => []
  | [a] => a
  | a :: b :: rest => a ++ '/' :: joinSep (b :: rest)

/-- One element read by `filepath.Clean`, `stk` being the elements written so
far, last one first: an empty element and `.` are dropped, `..` removes the
last element written when there is one that is not itself `..`, is dropped at
the root, and is kept otherwise; any other element is written. -/
def cleanStep (rooted : Bool) (stk : List Str) (c : Str) : List Str :=
  if c = [] ∨ c = ['.'] then stk
  else if c = ['.', '.'] then
    match stk with
    | [] => if rooted then [] else [c]
    | top :: rest =>
      if top = ['.', '.'] then (if rooted then stk else c :: stk) else rest
  else c :: stk

/-- Whether a non-empty path starts at the root. -/
def isRooted (path : Str) : Bool := path.head? = some '/'

/-- The elements `filepath.Clean` keeps of a path, last one first. -/
def cleanStack (path : Str) : List Str :=
  (splitSep path).foldl (cleanStep (isRooted path)) []

/-- The path `filepath.Clean` returns for the kept elements: joined by
separators after the root if any, `.` when nothing is left. -/
def renderPath (rooted : Bool) (stk : List Str) : Str :=
  if rooted then '/' :: joinSep stk.reverse
  else if joinSep stk.reverse = [] then ['.'] else joinSep stk.reverse

/-- Go `filepath.Clean`: the shortest equivalent path. -/
def filepathClean (path : Str) : Str :=
  if path = [] then ['.'] else renderPath (isRooted path) (cleanStack path)

/-- Go `filepath.Join`: the elements from the first non-empty one on, joined
by separators and cleaned; the empty string when all are empty. -/
def filepathJoin (elem : List Str) : Str :=
  match elem.dropWhile (fun e => e = []) with
  | [] => []
  | e :: es => filepathClean (joinSep (e :: es))

/-- Go `filepath.Base`: the last element of a path, trailing separators
stripped first; `.` for the empty path and `/` for a path of separators. -/
def filepathBase (path : Str) : Str :=
  if path = [] then ['.']
  else
    let stripped := path.reverse.dropWhile (fun c => c = '/')
    let last := (stripped.takeWhile (fun c => c != '/')).reverse
    if last = [] then ['/'] else last

/-! ## Record names -/

/-- Base name of a record: `fmt.Sprintf("i%d.t%d", index, term)`. -/
def recordName (index term : Nat) : Str :=
  'i' :: (fmtUint index ++ '.' :: 't' :: fmtUint term)

/-! ## Errors -/

/-- The Go error values the storage can return. -/
inductive GoError where
  /-- an error of a file-system call for which `os.IsNotExist` holds -/
  | notExist
  /-- any other error of a file-system call, by its `errno` -/
  | other (code : Nat)
  /-- the package's `errSideloadedFileNotFound` -/
  | errSideloadedFileNotFound
  /-- a `*strconv.NumError` of `ParseUint` at the given input -/
  | numError (e : NumError) (input : Str)
  /-- the result of `errors.Wrapf(cause, format, arg)` at a non-nil cause -/
  | wrapped (cause : GoError) (format : Str) (arg : Str)
  /-- `filepath.ErrBadPattern` -/
  | errBadPattern
  deriving DecidableEq

/-- Go `os.IsNotExist`; it is false at `nil` and does not look through
`errors.Wrapf`. -/
def isNotExist : Option GoError → Bool
  | some GoError.notExist => true
  | _ => false

/-- Go `errors.Wrapf`, which returns `nil` at a `nil` cause. -/
def wrapf (err : Option GoError) (format arg : Str) : Option GoError :=
  err.map (fun e => GoError.wrapped e format arg)

/-! ## The storage and its directory -/

/-- The fields of `diskSideloadStorage` that are state of the storage itself;
`st`, `limiter` and `eng` are handles on the collaborators modelled by `Disk`. -/
structure diskSideloadStorage where
  dir : Str
  dirCreated : Bool
  deriving DecidableEq

/-- Go `%` on signed integers: the remainder has the sign of the dividend. -/
def goRem (a b : Int) : Int := Int.tmod a b

/-- Modelled from the spec: `roachpb.RangeID`, declared outside this file, an
integer identifier of a range; any integer is admitted. -/
abbrev RangeID := Int

/-- Modelled from the spec: `roachpb.ReplicaID`, declared outside this file, an
integer identifier of a replica; any integer is admitted. -/
abbrev ReplicaID := Int

/-- `newDiskSideloadStorage`: the directory is
`<baseDir>/sideloading/<rangeID%1000>/<rangeID>.<replicaID>`. -/
def newDiskSideloadStorage (rangeID : RangeID) (replicaID : ReplicaID) (baseDir : Str) :
    diskSideloadStorage × Option GoError :=
  ({ dir := filepathJoin [baseDir, "sideloading".toList, fmtInt (goRem rangeID 1000),
        fmtInt rangeID ++ '.' :: fmtInt replicaID],
     dirCreated := false }, none)

/-- `diskSideloadStorage.Dir`. -/
def Dir (ss : diskSideloadStorage) : Str := ss.dir

/-- `diskSideloadStorage.filename`. -/
def filename (ss : diskSideloadStorage) (index term : Nat) : Str :=
  filepathJoin [ss.dir, recordName index term]

/-- `diskSideloadStorage.Filename`. -/
def Filename (ss : diskSideloadStorage) (index term : Nat) : Str × Option GoError :=
  (filename ss index term, none)

/-! ## The file system under the storage

The state of the file system that the storage can observe is its own
directory `ss.dir`: whether it exists and, if so, the files in it, by name. A
path handed to a primitive addresses the file named by its last element; every
path the storage builds is `ss.dir` joined with a file name. For
`filepath.Glob`, which reads the path of the directory as a pattern, the file
system holds this directory, the directories above it, and no other path that
the pattern matches. Sizes and counts are natural numbers: the `int64` sum of
the sizes of the files of one directory does not wrap. -/

/-- The directory `ss.dir` on disk. -/
structure Disk where
  /-- `none` when the directory does not exist, its files by name otherwise -/
  entries : Option (List (Str × Bytes))
  /-- the error `os.MkdirAll` fails with when it has to create the directory,
  `none` when it can create it -/
  mkdirErr : Option GoError
  deriving DecidableEq

/-- The contents of the file `name` among the files of a directory. -/
def lookupEntry (name : Str) : List (Str × Bytes) → Option Bytes
  | [] => none
  | (k, v) :: es => if k = name then some v else lookupEntry name es

/-- The files of a directory other than `name`. -/
def removeEntry (name : Str) (es : List (Str × Bytes)) : List (Str × Bytes) :=
  es.filter (fun e => decide (e.1 ≠ name))

/-- Modelled from the spec: `writeFileSyncing` (another file of the package)
over `engine.Engine`, "create-or-truncate the target file ... write the full
payload"; it fails with a missing-directory error when the directory is
absent. -/
def writeFileSyncing (d : Disk) (path : Str) (contents : Bytes) : Disk × Option GoError :=
  match d.entries with
  | none => (d, some GoError.notExist)
  | some es =>
    ({ d with entries := some ((filepathBase path, contents) :: removeEntry (filepathBase path) es) },
      none)

/-- Modelled from the spec: `engine.Engine.ReadFile`,
`readFile(path) -> bytes | NotExist`. -/
def readFile (d : Disk) (path : Str) : Bytes × Option GoError :=
  match d.entries with
  | none => ([], some GoError.notExist)
  | some es =>
    match lookupEntry (filepathBase path) es with
    | none => ([], some GoError.notExist)
    | some b => (b, none)

/-- Go `os.Stat(path)`, reduced to the size it reports. -/
def osStat (d : Disk) (path : Str) : Nat × Option GoError :=
  match d.entries with
  | none => (0, some GoError.notExist)
  | some es =>
    match lookupEntry (filepathBase path) es with
    | none => (0, some GoError.notExist)
    | some b => (b.length, none)

/-- Modelled from the spec: `engine.Engine.DeleteFile`,
`deleteFile(path) -> Ok | NotExist`. -/
def deleteFile (d : Disk) (path : Str) : Disk × Option GoError :=
  match d.entries with
  | none => (d, some GoError.notExist)
  | some es =>
    match lookupEntry (filepathBase path) es with
    | none => (d, some GoError.notExist)
    | some _ => ({ d with entries := some (removeEntry (filepathBase path) es) }, none)

/-- Modelled from the spec: `engine.Engine.DeleteDirAndFiles`,
`deleteDirAndAllFiles(path) -> Ok | NotExist`. -/
def deleteDirAndFiles (d : Disk) (_dir : Str) : Disk × Option GoError :=
  match d.entries with
  | none => (d, some GoError.notExist)
  | some _ => ({ d with entries := none }, none)

/-- Go `os.MkdirAll(ss.dir, 0755)`: nothing to do when the directory exists. -/
def osMkdirAll (d : Disk) (_dir : Str) : Disk × Option GoError :=
  match d.entries with
  | some _ => (d, none)
  | none =>
    match d.mkdirErr with
    | none => ({ d with entries := some [] }, none)
    | some e => (d, some e)

/-- Go `os.Remove(ss.dir)`: removes an empty directory, fails with `ENOTEMPTY`
(39) at one that has files. -/
def osRemove (d : Disk) (_dir : Str) : Disk × Option GoError :=
  match d.entries with
  | none => (d, some GoError.notExist)
  | some [] => ({ d with entries := none }, none)
  | some (_ :: _) => (d, some (GoError.other 39))

/-- Byte-wise order of strings, as `sort.Strings` uses it. -/
def strLe : Str → Str → Bool
  | [], _ => true
  | _ :: _, [] => false
  | a :: as, b :: bs => if a < b then true else if b < a then false else strLe as bs

/-- Insertion into a sorted list of names. -/
def insertName (n : Str) : List Str → List Str
  | [] => [n]
  | m :: ms => if strLe n m then n :: m :: ms else m :: insertName n ms

/-- Go `sort.Strings`. -/
def sortNames : List Str → List Str
  | [] => []
  | n :: ns => insertName n (sortNames ns)

/-! ## Patterns in full (`filepath.Match` and `filepath.Glob`, Go 1.16 and later)

`TruncateTo` hands `filepath.Join(ss.dir, "i*.t*")` to `filepath.Glob`, which
reads the whole string as a pattern, the directory part included. -/

/-- Go `getEsc`: a possibly escaped character of a character class and the
rest of the chunk; `none` is `ErrBadPattern`. -/
def getEsc : Str → Option (Char × Str)
  | [] => none
  | c :: rest =>
    if c = '-' ∨ c = ']' then none
    else if c = '\\' then
      match rest with
      | [] => none
      | e :: rest2 => if rest2 = [] then none else some (e, rest2)
    else if rest = [] then none else some (c, rest)

/-- The loop of `matchChunk` over the ranges of a character class, entered
after `[` and a possible `^`: whether `r` is in one of the ranges, and the
chunk after the closing `]`; `none` is `ErrBadPattern`. The first argument
bounds the number of ranges. -/
def classLoop (r : Char) : Nat → Str → Nat → Bool → Option (Bool × Str)
  | 0, _, _, _ => none
  | fuel + 1, chunk, nrange, matched =>
    if chunk.head? = some ']' ∧ 0 < nrange then some (matched, chunk.tail)
    else
      match getEsc chunk with
      | none => none
      | some (lo, chunk1) =>
        if chunk1.head? = some '-' then
          match getEsc chunk1.tail with
          | none => none
          | some (hi, chunk2) =>
            classLoop r fuel chunk2 (nrange + 1) (matched || (decide (lo ≤ r) && decide (r ≤ hi)))
        else classLoop r fuel chunk1 (nrange + 1) (matched || (decide (lo ≤ r) && decide (r ≤ lo)))

/-- The loop of Go `matchChunk` over the operators of a chunk (literals,
character classes, `?`, escapes). `failed` records that the match has failed,
after which the chunk is still checked for its syntax. The outer `none` is
`ErrBadPattern`, `some none` no match, `some (some rest)` a match that leaves
`rest` of `s`. The first argument bounds the number of operators. -/
def matchChunkAux : Nat → Str → Str → Bool → Option (Option Str)
  | _, [], s, failed => some (if failed then none else some s)
  | 0, _ :: _, _, _ => none
  | fuel + 1, c :: rest, s, failed =>
    let failed1 := failed || s.isEmpty
    let s1 := if failed1 then s else s.tail
    if c = '[' then
      let r := if failed1 then Char.ofNat 0 else s.headD (Char.ofNat 0)
      let negated := decide (rest.head? = some '^')
      let chunk1 := if negated then rest.tail else rest
      match classLoop r (chunk1.length + 1) chunk1 0 false with
      | none => none
      | some (m, chunk2) => matchChunkAux fuel chunk2 s1 (failed1 || (m == negated))
    else if c = '?' then
      matchChunkAux fuel rest s1 (failed1 || decide (s.head? = some '/'))
    else if c = '\\' then
      match rest with
      | [] => none
      | e :: rest2 => matchChunkAux fuel rest2 s1 (failed1 || decide (s.head? ≠ some e))
    else matchChunkAux fuel rest s1 (failed1 || decide (s.head? ≠ some c))

/-- Go `matchChunk(chunk, s)`. -/
def matchChunkGo (chunk s : Str) : Option (Option Str) :=
  matchChunkAux chunk.length chunk s false

/-- The scan of Go `scanChunk` for the end of a chunk: the first star outside
a character class and not escaped. `skip` says the character is escaped. -/
def scanLoop : Str → Bool → Bool → Str × Str
  | [], _, _ => ([], [])
  | c :: rest, inrange, skip =>
    if skip then ((c :: (scanLoop rest inrange false).1), (scanLoop rest inrange false).2)
    else if c = '\\' then ((c :: (scanLoop rest inrange true).1), (scanLoop rest inrange true).2)
    else if c = '[' then ((c :: (scanLoop rest true false).1), (scanLoop rest true false).2)
    else if c = ']' then ((c :: (scanLoop rest false false).1), (scanLoop rest false false).2)
    else if c = '*' ∧ inrange = false then ([], c :: rest)
    else ((c :: (scanLoop rest inrange false).1), (scanLoop rest inrange false).2)

/-- Go `scanChunk`: whether the pattern starts with a star, the chunk after
the stars, and the rest of the pattern. -/
def scanChunk (pattern : Str) : Bool × Str × Str :=
  (decide (pattern.head? = some '*'),
    scanLoop (pattern.dropWhile (fun c => c = '*')) false false)

/-- The check `Match` makes before it returns no match: the chunks of the rest
of the pattern are well-formed. -/
def checkRest : Nat → Str → Option GoError
  | 0, _ => none
  | fuel + 1, pattern =>
    if pattern = [] then none
    else
      match matchChunkGo (scanChunk pattern).2.1 [] with
      | none => some GoError.errBadPattern
      | some _ => checkRest fuel (scanChunk pattern).2.2

/-- The search of `Match` for a chunk that follows a star, after the chunk
failed at the current position: it is tried after skipping one more character
at a time, never a separator; a match that leaves text is passed over when
the chunk is the last one. -/
def starSearch (chunk : Str) (last : Bool) : Str → Option (Option Str)
  | [] => some none
  | c :: rest =>
    if c = '/' then some none
    else
      match matchChunkGo chunk rest with
      | none => none
      | some (some t) =>
        if last = true ∧ t ≠ [] then starSearch chunk last rest else some (some t)
      | some none => starSearch chunk last rest

/-- The loop of Go `Match` over the chunks of the pattern. The first argument
bounds the number of chunks. -/
def matchLoop : Nat → Str → Str → Bool × Option GoError
  | 0, _, _ => (false, none)
  | fuel + 1, pattern, name =>
    if pattern = [] then (name.isEmpty, none)
    else if (scanChunk pattern).1 = true ∧ (scanChunk pattern).2.1 = [] then
      (!name.contains '/', none)
    else
      match matchChunkGo (scanChunk pattern).2.1 name with
      | none => (false, some GoError.errBadPattern)
      | some r =>
        match (match r with
          | some t => if t = [] ∨ (scanChunk pattern).2.2 ≠ [] then some t else none
          | none => none) with
        | some t => matchLoop fuel (scanChunk pattern).2.2 t
        | none =>
          match (if (scanChunk pattern).1 = true then
              starSearch (scanChunk pattern).2.1 (decide ((scanChunk pattern).2.2 = [])) name
            else some none) with
          | none => (false, some GoError.errBadPattern)
          | some (some t) => matchLoop fuel (scanChunk pattern).2.2 t
          | some none =>
            match checkRest ((scanChunk pattern).2.2.length + 1) (scanChunk pattern).2.2 with
            | some e => (false, some e)
            | none => (false, none)

/-- Go `filepath.Match(pattern, name)`. -/
def filepathMatch (pattern name : Str) : Bool × Option GoError :=
  matchLoop (pattern.length + 1) pattern name

/-- Go `hasMeta`: whether a path has one of the characters that `Match`
reads as an operator. -/
def hasMeta (path : Str) : Bool :=
  path.any (fun c => decide (c = '*' ∨ c = '?' ∨ c = '[' ∨ c = '\\'))

/-- Go `filepath.Split`: the path up to and with its last separator, and what
follows it. -/
def filepathSplit (path : Str) : Str × Str :=
  ((path.reverse.dropWhile (fun c => c != '/')).reverse,
    (path.reverse.takeWhile (fun c => c != '/')).reverse)

/-- Go `cleanGlobPath`: the directory part of a pattern without its trailing
separator. -/
def cleanGlobPath (path : Str) : Str :=
  if path = [] then ['.'] else if path = ['/'] then path else path.dropLast

/-- The loop of Go `glob` over the sorted names of a directory: the names that
match `file`, joined to `dir`, are added to `acc`. -/
def globNames (file dir : Str) : List Str → List Str → List Str × Option GoError
  | [], acc => (acc, none)
  | n :: ns, acc =>
    match filepathMatch file n with
    | (_, some e) => (acc, some e)
    | (true, none) => globNames file dir ns (acc ++ [filepathJoin [dir, n]])
    | (false, none) => globNames file dir ns acc

/-- Go `glob(dir, file, acc)` at a path `dir` of the directory of the storage:
nothing is added when the directory does not exist. -/
def globDisk (d : Disk) (dir file : Str) (acc : List Str) : List Str × Option GoError :=
  match d.entries with
  | none => (acc, none)
  | some es => globNames file dir (sortNames (es.map Prod.fst)) acc

/-- The loop `for _, d := range m` of `Glob` over the directories that the
directory part of the pattern has matched, for the last element of the
pattern. Every such directory is the directory of the storage. -/
def globEach (d : Disk) (file : Str) : List Str → List Str → List Str × Option GoError
  | [], acc => (acc, none)
  | x :: xs, acc =>
    match globDisk d x file acc with
    | (m, some e) => (m, some e)
    | (m, none) => globEach d file xs m

/-- The same loop for an element of the pattern that names a directory above
the directory of the storage: such a directory holds the next element of the
path and nothing else, when the directory of the storage exists. -/
def globAbove (present : Bool) (file : Str) : List Str → List Str → List Str × Option GoError
  | [], acc => (acc, none)
  | x :: xs, acc =>
    match globNames file x (if present then [file] else []) acc with
    | (m, some e) => (m, some e)
    | (m, none) => globAbove present file xs m

/-- Go `globWithLimit(pattern, depth)` at a pattern with operators that is the
path of the directory of the storage, in a file system that holds this
directory (when `present`), the directories above it, and no other path that
the pattern matches. At depth 10000 `Glob` returns `ErrBadPattern`. The first
argument bounds the recursion, in which the pattern gets shorter. -/
def globDirs (present : Bool) : Nat → Nat → Str → List Str × Option GoError
  | 0, _, _ => ([], some GoError.errBadPattern)
  | fuel + 1, depth, pattern =>
    if depth = 10000 then ([], some GoError.errBadPattern)
    else
      match (filepathMatch pattern []).2 with
      | some e => ([], some e)
      | none =>
        if hasMeta pattern = false then (if present then [pattern] else [], none)
        else if hasMeta (cleanGlobPath (filepathSplit pattern).1) = false then
          globNames (filepathSplit pattern).2 (cleanGlobPath (filepathSplit pattern).1)
            (if present then [(filepathSplit pattern).2] else []) []
        else if cleanGlobPath (filepathSplit pattern).1 = pattern then
          ([], some GoError.errBadPattern)
        else
          match globDirs present fuel (depth + 1) (cleanGlobPath (filepathSplit pattern).1) with
          | (_, some e) => ([], some e)
          | (m, none) => globAbove present (filepathSplit pattern).2 m []

/-- Go `filepath.Glob(pattern)` for a pattern whose directory part is the
path of the directory of the storage: the pattern is checked; a directory
part without operators is listed as it is; one with operators is first
matched as a pattern itself. A pattern without any operator is looked up as a
file. -/
def filepathGlob (d : Disk) (pattern : Str) : List Str × Option GoError :=
  match (filepathMatch pattern []).2 with
  | some e => ([], some e)
  | none =>
    if hasMeta pattern = false then
      (match (osStat d pattern).2 with
        | none => [pattern]
        | some _ => [], none)
    else if hasMeta (cleanGlobPath (filepathSplit pattern).1) = false then
      globDisk d (cleanGlobPath (filepathSplit pattern).1) (filepathSplit pattern).2 []
    else if cleanGlobPath (filepathSplit pattern).1 = pattern then
      ([], some GoError.errBadPattern)
    else
      match globDirs d.entries.isSome pattern.length 1
          (cleanGlobPath (filepathSplit pattern).1) with
      | (_, some e) => ([], some e)
      | (m, none) => globEach d (filepathSplit pattern).2 m []

/-! ## The operations of `diskSideloadStorage` -/

/-- What a call of `Put` leaves: the storage, the file system, the error
returned, and how many times the write primitive and `createDir` were called. -/
structure PutResult (σ : Type) where
  ss : diskSideloadStorage
  world : σ
  err : Option GoError
  writes : Nat
  creates : Nat
  deriving DecidableEq

/-- `diskSideloadStorage.createDir` over a directory-creation primitive. -/
def createDirWith {σ : Type} (mkdirAll : σ → Str → σ × Option GoError)
    (ss : diskSideloadStorage) (w : σ) : diskSideloadStorage × σ × Option GoError :=
  let r := mkdirAll w ss.dir
  ({ ss with dirCreated := ss.dirCreated || r.2.isNone }, r.1, r.2)

/-- The `for` loop of `Put` over a write primitive and a directory-creation
primitive on a file system `σ`. The first argument bounds the number of
iterations; `none` says the loop has not returned within the bound. `nw` and
`nc` count the calls made so far. -/
def putLoop {σ : Type} (write : σ → Str → Bytes → σ × Option GoError)
    (mkdirAll : σ → Str → σ × Option GoError) (file : Str) (contents : Bytes) :
    Nat → diskSideloadStorage → σ → Nat → Nat → Option (PutResult σ)
  | 0, _, _, _, _ => none
  | fuel + 1, ss, w, nw, nc =>
    match write w file contents with
    | (w1, none) => some ⟨ss, w1, none, nw + 1, nc⟩
    | (w1, some err) =>
      if !isNotExist (some err) then some ⟨ss, w1, some err, nw + 1, nc⟩
      else
        match createDirWith mkdirAll ss w1 with
        | (ss2, w2, some err2) => some ⟨ss2, w2, some err2, nw + 1, nc + 1⟩
        | (ss2, w2, none) => putLoop write mkdirAll file contents fuel ss2 w2 (nw + 1) (nc + 1)

/-- `diskSideloadStorage.Put` over arbitrary primitives. -/
def PutWith {σ : Type} (write : σ → Str → Bytes → σ × Option GoError)
    (mkdirAll : σ → Str → σ × Option GoError) (fuel : Nat)
    (ss : diskSideloadStorage) (w : σ) (index term : Nat) (contents : Bytes) :
    Option (PutResult σ) :=
  putLoop write mkdirAll (filename ss index term) contents fuel ss w 0 0

/-- `diskSideloadStorage.createDir`. -/
def createDir (ss : diskSideloadStorage) (d : Disk) : diskSideloadStorage × Disk × Option GoError :=
  createDirWith osMkdirAll ss d

/-- `diskSideloadStorage.Put`. -/
def Put (fuel : Nat) (ss : diskSideloadStorage) (d : Disk) (index term : Nat)
    (contents : Bytes) : Option (PutResult Disk) :=
  PutWith writeFileSyncing osMkdirAll fuel ss d index term contents

/-- `diskSideloadStorage.Get`. -/
def Get (ss : diskSideloadStorage) (d : Disk) (index term : Nat) : Bytes × Option GoError :=
  match readFile d (filename ss index term) with
  | (b, err) =>
    if isNotExist err then ([], some GoError.errSideloadedFileNotFound) else (b, err)

/-- `diskSideloadStorage.purgeFile`: the file system left, the size freed and
the error. -/
def purgeFile (_ss : diskSideloadStorage) (d : Disk) (file : Str) :
    Disk × Nat × Option GoError :=
  match osStat d file with
  | (_, some err) =>
    if isNotExist (some err) then (d, 0, some GoError.errSideloadedFileNotFound)
    else (d, 0, some err)
  | (size, none) =>
    match deleteFile d file with
    | (d2, some err) =>
      if isNotExist (some err) then (d2, 0, some GoError.errSideloadedFileNotFound)
      else (d2, 0, some err)
    | (d2, none) => (d2, size, none)

/-- `diskSideloadStorage.Purge`. -/
def Purge (ss : diskSideloadStorage) (d : Disk) (index term : Nat) :
    Disk × Nat × Option GoError :=
  purgeFile ss d (filename ss index term)

/-- `diskSideloadStorage.Clear`. -/
def Clear (ss : diskSideloadStorage) (d : Disk) : diskSideloadStorage × Disk × Option GoError :=
  match deleteDirAndFiles d ss.dir with
  | (d2, err) => ({ ss with dirCreated := ss.dirCreated && err.isSome }, d2, err)

/-- The `for _, match := range matches` loop of `TruncateTo`: the file system
left, `deleted`, `size` and the error the loop returns with, if any. -/
def truncateLoop (ss : diskSideloadStorage) (index : Nat) :
    List Str → Disk → Nat → Nat → Disk × Nat × Nat × Option GoError
  | [], d, deleted, size => (d, deleted, size, none)
  | m :: rest, d, deleted, size =>
    let base := filepathBase m
    if base.length < 1 ∨ base.head? ≠ some 'i' then truncateLoop ss index rest d deleted size
    else
      match parseUint (upToDot (base.drop 1)) with
      | (_, some e) =>
        (d, deleted, size,
          wrapf (some (GoError.numError e (upToDot (base.drop 1))))
            "while parsing %q during TruncateTo".toList m)
      | (i, none) =>
        if index ≤ i then truncateLoop ss index rest d deleted size
        else
          match purgeFile ss d m with
          | (d2, _, some err) =>
            (d2, deleted, size, wrapf (some err) "while purging %q".toList m)
          | (d2, fileSize, none) => truncateLoop ss index rest d2 (deleted + 1) (size + fileSize)

/-- `diskSideloadStorage.TruncateTo`: the file system left, the freed bytes and
the error. -/
def TruncateTo (ss : diskSideloadStorage) (d : Disk) (index : Nat) :
    Disk × Nat × Option GoError :=
  match filepathGlob d (filepathJoin [ss.dir, "i*.t*".toList]) with
  | (_, some err) => (d, 0, some err)
  | (matched, none) =>
    match truncateLoop ss index matched d 0 0 with
    | (d1, _, size, some err) => (d1, size, some err)
    | (d1, deleted, size, none) =>
      if deleted = matched.length then
        match osRemove d1 ss.dir with
        | (d2, err) =>
          if !isNotExist err then (d2, size, wrapf err "while purging %q".toList ss.dir)
          else (d2, size, none)
      else (d1, size, none)

/-! ## Auxiliary notions for the statements -/

/-- A name that `filepath.Clean` keeps as it is: not empty, without a
separator, and neither `.` nor `..`. -/
def NormalName (n : Str) : Prop := n ≠ [] ∧ '/' ∉ n ∧ n ≠ ['.'] ∧ n ≠ ['.', '.']

/-- What `filepath.Clean` writes in front of a last element that it keeps. -/
def pathPrefix (rooted : Bool) (stk : List Str) : Str :=
  if stk = [] then (if rooted then ['/'] else [])
  else (if rooted then '/' :: joinSep stk.reverse else joinSep stk.reverse) ++ ['/']

/-- What `filepath.Join` writes in front of a second element that it keeps. -/
def joinPrefix (dir : Str) : Str :=
  if dir = [] then [] else pathPrefix (isRooted dir) (cleanStack dir)

/-- Whether the directory exists and has a file of the given name. -/
def fileExists (d : Disk) (name : Str) : Bool :=
  match d.entries with
  | none => false
  | some es => (lookupEntry name es).isSome

/-- The index `TruncateTo` reads off a file name: the text between the first
character and the first dot, parsed. -/
def nameIndex (n : Str) : Nat := (parseUint (upToDot (n.drop 1))).1

/-- The size of the file `n` among the files `es`, 0 when there is none. -/
def sizeIn (es : List (Str × Bytes)) (n : Str) : Nat :=
  match lookupEntry n es with
  | none => 0
  | some b => b.length

/-- A file name that `TruncateTo` matches and whose index it can parse. -/
def GoodName (n : Str) : Prop :=
  matchRecordPattern n = true ∧ (parseUint (upToDot (n.drop 1))).2 = none

/-- The files of a directory all have names that `Put` writes, each name once. -/
def AllRecords (es : List (Str × Bytes)) : Prop :=
  (es.map Prod.fst).Nodup ∧
    ∀ e ∈ es, ∃ i t, i < 2 ^ 64 ∧ t < 2 ^ 64 ∧ e.1 = recordName i t

/-- Every file of the directory, if it exists, was written by `Put`. -/
def WrittenByPut (d : Disk) : Prop := ∀ es, d.entries = some es → AllRecords es

/-- The files of a disk, none when the directory does not exist. -/
def filesOf (d : Disk) : List (Str × Bytes) :=
  match d.entries with
  | none => []
  | some es => es

/-- The names, among `ns`, of the files that `TruncateTo` purges. -/
def purgedNames (index : Nat) (ns : List Str) : List Str :=
  ns.filter (fun n => decide (nameIndex n < index))

/-- The names `filepath.Glob` lists for a directory with the files `es`. -/
def matchedNames (es : List (Str × Bytes)) : List Str :=
  (sortNames (es.map Prod.fst)).filter matchRecordPattern

/-- The value of a string of decimal digits. -/
def decodeUint (s : Str) : Nat := s.foldl (fun n c => n * 10 + (c.toNat - 48)) 0

/-- The last element of a storage directory: `fmt.Sprintf("%d.%d", rangeID,
replicaID)`. -/
def leafName (rangeID replicaID : Int) : Str := fmtInt rangeID ++ '.' :: fmtInt replicaID

/-- A storage at range 5, replica 1 under `/d`. -/
def ssA : diskSideloadStorage := (newDiskSideloadStorage 5 1 "/d".toList).1

/-- A disk on which the directory does not exist yet and can be created. -/
def emptyDisk : Disk := ⟨none, none⟩

/-- A write primitive that reports a missing directory on its first two calls
and succeeds on the third; the state counts the calls. -/
def flakyWrite (n : Nat) (_path : Str) (_contents : Bytes) : Nat × Option GoError :=
  if n < 2 then (n + 1, some GoError.notExist) else (n + 1, none)

/-- A write primitive that always reports a missing directory. -/
def missingWrite (n : Nat) (_path : Str) (_contents : Bytes) : Nat × Option GoError :=
  (n + 1, some GoError.notExist)

/-- A directory creation that always reports success. -/
def okMkdir (n : Nat) (_dir : Str) : Nat × Option GoError := (n, none)

/-- The disk after `Put(7,2,"abc")` and `Put(9,2,"de")` on a fresh storage. -/
def scenarioDisk : Disk :=
  ⟨some [(recordName 9 2, [100, 101]), (recordName 7 2, [97, 98, 99])], none⟩

/-- The disk of scenario A once record `(7,2)` is gone. -/
def scenarioDisk2 : Disk := ⟨some [(recordName 9 2, [100, 101])], none⟩

/-- The directory `TruncateTo(n)` leaves of a directory written by `Put` when
it purges the records below `n`: no directory when no record is left. -/
def truncatedDisk (d : Disk) (n : Nat) : Disk :=
  match d.entries with
  | none => d
  | some es =>
    ⟨if es.filter (fun e => decide (n ≤ nameIndex e.1)) = [] then none
      else some (es.filter (fun e => decide (n ≤ nameIndex e.1))), d.mkdirErr⟩

/-- The bytes of the files of a directory whose index is below `n`. -/
def bytesBelow (d : Disk) (n : Nat) : Nat :=
  (((filesOf d).filter (fun e => decide (nameIndex e.1 < n))).map (fun e => e.2.length)).sum

/-- A directory with record `(9,2)` and a file `foo` that is no record. -/
def foreignDisk : Disk :=
  ⟨some [(recordName 9 2, [100, 101]), ("foo".toList, [1])], none⟩

/-- A storage at range 5, replica 1 under `/d/a[b]`, a path with a character
class. -/
def ssB : diskSideloadStorage := (newDiskSideloadStorage 5 1 "/d/a[b]".toList).1

theorem digitChar_toNat {d : Nat} (h : d < 10) : (digitChar d).toNat = 48 + d := by
  interval_cases d <;> rfl

theorem digitChar_isDigit {d : Nat} (h : d < 10) :
    '0' ≤ digitChar d ∧ digitChar d ≤ '9' := by
  interval_cases d <;> decide

theorem fmtLoop_fuel (f1 : Nat) : ∀ (f2 u : Nat) (buf : Str), u ≤ f1 → u ≤ f2 →
    fmtLoop f1 u buf = fmtLoop f2 u buf := by
  induction f1 with
  | zero =>
    intro f2 u buf h1 _
    have hu : u = 0 := by omega
    subst hu
    cases f2 <;> simp [fmtLoop]
  | succ f1 ih =>
    intro f2 u buf h1 h2
    cases f2 with
    | zero =>
      have hu : u = 0 := by omega
      subst hu
      simp [fmtLoop]
    | succ f2 =>
      simp only [fmtLoop]
      split
      · apply ih <;> omega
      · rfl

theorem fmtLoop_buf (f : Nat) : ∀ (u : Nat) (buf : Str),
    fmtLoop f u buf = fmtLoop f u [] ++ buf := by
  induction f with
  | zero => intro u buf; simp [fmtLoop]
  | succ f ih =>
    intro u buf
    simp only [fmtLoop]
    split
    · rw [ih _ (_ :: buf), ih _ [_]]; simp
    · simp

theorem fmtUint_lt {u : Nat} (h : u < 10) : fmtUint u = [digitChar u] := by
  unfold fmtUint
  cases u with
  | zero => rfl
  | succ n => simp only [fmtLoop]; rw [if_neg (by omega)]

theorem fmtUint_ge {u : Nat} (h : 10 ≤ u) :
    fmtUint u = fmtUint (u / 10) ++ [digitChar (u % 10)] := by
  unfold fmtUint
  cases u with
  | zero => omega
  | succ n =>
    simp only [fmtLoop]
    rw [if_pos h, fmtLoop_buf, fmtLoop_fuel n (( n + 1) / 10) (( n + 1) / 10) [] (by omega) (le_refl _)]
    congr 2
    congr 1
    omega

theorem fmtUint_ne_nil (u : Nat) : fmtUint u ≠ [] := by
  by_cases h : u < 10
  · rw [fmtUint_lt h]; simp
  · rw [fmtUint_ge (by omega)]; simp

theorem fmtUint_digits (u : Nat) : ∀ c ∈ fmtUint u, '0' ≤ c ∧ c ≤ '9' := by
  induction u using Nat.strong_induction_on with
  | _ u ih =>
    by_cases h : u < 10
    · rw [fmtUint_lt h]
      intro c hc
      simp only [List.mem_singleton] at hc
      subst hc
      exact digitChar_isDigit h
    · rw [fmtUint_ge (by omega)]
      intro c hc
      rcases List.mem_append.mp hc with hc | hc
      · exact ih (u / 10) (by omega) c hc
      · simp only [List.mem_singleton] at hc
        subst hc
        exact digitChar_isDigit (Nat.mod_lt _ (by decide))

theorem parseUintLoop_append (xs ys : Str) : ∀ n : Nat,
    parseUintLoop (xs ++ ys) n =
      if (parseUintLoop xs n).2 = none then parseUintLoop ys (parseUintLoop xs n).1
      else parseUintLoop xs n := by
  induction xs with
  | nil => intro n; simp [parseUintLoop]
  | cons c xs ih =>
    intro n
    simp only [List.cons_append, parseUintLoop]
    split
    · split
      · simp
      · split
        · simp
        · exact ih _
    · simp

theorem parseUintLoop_fmtUint (u : Nat) (hu : u < 2 ^ 64) :
    parseUintLoop (fmtUint u) 0 = (u, none) := by
  induction u using Nat.strong_induction_on with
  | _ u ih =>
    by_cases h : u < 10
    · rw [fmtUint_lt h]
      simp only [parseUintLoop, digitChar_toNat h, maxUint64]
      rw [if_pos (digitChar_isDigit h)]
      have e : (0 * 10 + (48 + u - 48)) % 2 ^ 64 = u := by omega
      simp only [e]
      rw [if_neg (by omega), if_neg (by omega)]
    · have hd : u % 10 < 10 := Nat.mod_lt _ (by decide)
      rw [fmtUint_ge (by omega), parseUintLoop_append, ih (u / 10) (by omega) (by omega)]
      simp only [parseUintLoop, digitChar_toNat hd, maxUint64, if_true]
      rw [if_pos (digitChar_isDigit hd)]
      have e : (u / 10 * 10 + (48 + u % 10 - 48)) % 2 ^ 64 = u := by omega
      simp only [e]
      rw [if_neg (by omega), if_neg (by omega)]

theorem parseUint_fmtUint (u : Nat) (hu : u < 2 ^ 64) :
    parseUint (fmtUint u) = (u, none) := by
  unfold parseUint
  rw [if_neg (fmtUint_ne_nil u)]
  exact parseUintLoop_fmtUint u hu

/-! ## Facts about paths -/

theorem splitSep_ne_nil (s : Str) : splitSep s ≠ [] := by
  cases s with
  | nil => simp [splitSep]
  | cons c cs =>
    simp only [splitSep]
    split
    · simp
    · split <;> simp

theorem splitSep_append (a b : Str) : splitSep (a ++ '/' :: b) = splitSep a ++ splitSep b := by
  induction a with
  | nil => simp [splitSep]
  | cons c a ih =>
    simp only [List.cons_append, splitSep]
    by_cases hc : c = '/'
    · simp [hc, ih]
    · have ih2 : splitSep (a.append ('/' :: b)) = splitSep a ++ splitSep b := ih
      rw [if_neg hc, if_neg hc, ih2]
      cases h : splitSep a with
      | nil => exact absurd h (splitSep_ne_nil a)
      | cons x xs => simp

theorem splitSep_noSep (n : Str) (h : '/' ∉ n) : splitSep n = [n] := by
  induction n with
  | nil => rfl
  | cons c n ih =>
    simp only [List.mem_cons, not_or] at h
    simp only [splitSep]
    rw [if_neg (fun e => h.1 e.symm), ih h.2]

theorem cleanStep_normal (r : Bool) (stk : List Str) (n : Str) (h : NormalName n) :
    cleanStep r stk n = n :: stk := by
  obtain ⟨h1, _, h3, h4⟩ := h
  simp [cleanStep, h1, h3, h4]

theorem isRooted_append (a b : Str) (h : a ≠ []) : isRooted (a ++ b) = isRooted a := by
  cases a with
  | nil => exact absurd rfl h
  | cons c a => simp [isRooted]

theorem cleanStack_snoc (p n : Str) (hp : p ≠ []) (hn : NormalName n) :
    cleanStack (p ++ '/' :: n) = n :: cleanStack p := by
  unfold cleanStack
  rw [splitSep_append, splitSep_noSep n hn.2.1, List.foldl_append, isRooted_append p _ hp]
  simp [cleanStep_normal _ _ _ hn]

theorem joinSep_snoc (xs : List Str) (n : Str) :
    joinSep (xs ++ [n]) = if xs = [] then n else joinSep xs ++ '/' :: n := by
  induction xs with
  | nil => simp [joinSep]
  | cons a xs ih =>
    cases xs with
    | nil => simp [joinSep]
    | cons b xs =>
      have e : joinSep ((a :: b :: xs) ++ [n]) = a ++ '/' :: joinSep ((b :: xs) ++ [n]) := by
        simp [joinSep]
      rw [e, ih]
      simp [joinSep]

theorem renderPath_cons (r : Bool) (n : Str) (stk : List Str) (hn : n ≠ []) :
    renderPath r (n :: stk) = pathPrefix r stk ++ n := by
  unfold renderPath pathPrefix
  rw [List.reverse_cons, joinSep_snoc]
  by_cases hs : stk = []
  · subst hs
    cases r <;> simp [hn]
  · have hs2 : stk.reverse ≠ [] := by simpa using hs
    cases r <;> simp [hs, hs2]

theorem pathPrefix_tail (r : Bool) (stk : List Str) :
    pathPrefix r stk = [] ∨ ∃ q, pathPrefix r stk = q ++ ['/'] := by
  unfold pathPrefix
  by_cases hs : stk = []
  · cases r
    · left; simp [hs]
    · right; exact ⟨[], by simp [hs]⟩
  · right
    rw [if_neg hs]
    exact ⟨_, rfl⟩

theorem filepathClean_snoc (p n : Str) (hp : p ≠ []) (hn : NormalName n) :
    filepathClean (p ++ '/' :: n) = pathPrefix (isRooted p) (cleanStack p) ++ n := by
  unfold filepathClean
  rw [if_neg (by simp), cleanStack_snoc p n hp hn, isRooted_append p _ hp,
    renderPath_cons _ _ _ hn.1]

theorem filepathClean_normal (n : Str) (hn : NormalName n) : filepathClean n = n := by
  unfold filepathClean
  rw [if_neg hn.1]
  have hr : isRooted n = false := by
    obtain ⟨h1, h2, _, _⟩ := hn
    cases n with
    | nil => exact absurd rfl h1
    | cons c n =>
      simp only [List.mem_cons, not_or] at h2
      simp only [isRooted, List.head?_cons, Option.some.injEq, decide_eq_false_iff_not]
      exact fun e => h2.1 e.symm
  unfold cleanStack
  rw [splitSep_noSep n hn.2.1, hr]
  simp only [List.foldl_cons, List.foldl_nil, cleanStep_normal _ _ _ hn]
  simp [renderPath, joinSep, hn.1]

theorem filepathJoin_pair (dir n : Str) (hn : NormalName n) :
    filepathJoin [dir, n] = joinPrefix dir ++ n := by
  unfold filepathJoin joinPrefix
  by_cases hd : dir = []
  · subst hd
    have : List.dropWhile (fun e => decide (e = [])) [([] : Str), n] = [n] := by
      simp [List.dropWhile, hn.1]
    rw [this]
    simp [joinSep, filepathClean_normal n hn]
  · have : List.dropWhile (fun e => decide (e = [])) [dir, n] = [dir, n] := by
      simp [List.dropWhile, hd]
    rw [this, if_neg hd]
    simp only [joinSep]
    exact filepathClean_snoc dir n hd hn

theorem joinPrefix_tail (dir : Str) :
    joinPrefix dir = [] ∨ ∃ q, joinPrefix dir = q ++ ['/'] := by
  unfold joinPrefix
  by_cases hd : dir = []
  · left; simp [hd]
  · rw [if_neg hd]; exact pathPrefix_tail _ _

theorem filepathBase_append (pre n : Str) (h1 : n ≠ []) (h2 : '/' ∉ n)
    (hpre : pre = [] ∨ ∃ q, pre = q ++ ['/']) : filepathBase (pre ++ n) = n := by
  have hrev : n.reverse ≠ [] := by simpa using h1
  have hno : ∀ c ∈ n.reverse, c ≠ '/' := by
    intro c hc e
    subst e
    exact h2 (List.mem_reverse.mp hc)
  have hdrop : ∀ rest : Str, (n.reverse ++ rest).dropWhile (fun c => decide (c = '/'))
      = n.reverse ++ rest := by
    intro rest
    cases hr : n.reverse with
    | nil => exact absurd hr hrev
    | cons c cs =>
      have : c ≠ '/' := hno c (by rw [hr]; simp)
      simp [List.dropWhile, this]
  have htake : ∀ (xs : Str), (∀ c ∈ xs, c ≠ '/') → ∀ rest : Str,
      (rest = [] ∨ ∃ t, rest = '/' :: t) →
      (xs ++ rest).takeWhile (fun c => c != '/') = xs := by
    intro xs
    induction xs with
    | nil =>
      intro _ rest hrest
      rcases hrest with h | ⟨t, h⟩ <;> subst h <;> simp [List.takeWhile]
    | cons c cs ih =>
      intro hall rest hrest
      have hc : c ≠ '/' := hall c (by simp)
      have := ih (fun x hx => hall x (by simp [hx])) rest hrest
      rw [List.cons_append, List.takeWhile_cons, this]
      simp [hc]
  unfold filepathBase
  rw [if_neg (by simp [h1])]
  have hrest : pre.reverse = [] ∨ ∃ t, pre.reverse = '/' :: t := by
    rcases hpre with h | ⟨q, h⟩
    · left; simp [h]
    · right; exact ⟨q.reverse, by simp [h]⟩
  simp only [List.reverse_append, hdrop]
  rw [htake n.reverse hno pre.reverse hrest]
  simp [h1]

theorem filepathBase_join (dir n : Str) (hn : NormalName n) :
    filepathBase (filepathJoin [dir, n]) = n := by
  rw [filepathJoin_pair dir n hn]
  exact filepathBase_append _ n hn.1 hn.2.1 (joinPrefix_tail dir)

/-! ## Facts about record names -/

theorem digit_ne_sep {c : Char} (h : '0' ≤ c ∧ c ≤ '9') : c ≠ '/' ∧ c ≠ '.' := by
  constructor
  · intro e; subst e; exact absurd h.1 (by decide)
  · intro e; subst e; exact absurd h.1 (by decide)

theorem upToDot_digits (ds rest : Str) (hd : ∀ c ∈ ds, '0' ≤ c ∧ c ≤ '9') :
    upToDot (ds ++ '.' :: rest) = ds := by
  unfold upToDot
  induction ds with
  | nil => simp [List.takeWhile]
  | cons c ds ih =>
    have hc : c ≠ '.' := (digit_ne_sep (hd c (by simp))).2
    rw [List.cons_append, List.takeWhile_cons, ih (fun x hx => hd x (by simp [hx]))]
    simp [hc]

theorem matchStar_digits (ds rest : Str) (hd : ∀ c ∈ ds, '0' ≤ c ∧ c ≤ '9') :
    matchStar ['.', 't'] (ds ++ '.' :: 't' :: rest) = some rest := by
  induction ds with
  | nil => simp [matchStar, matchChunk]
  | cons c ds ih =>
    have hc := digit_ne_sep (hd c (by simp))
    have ih2 := ih (fun x hx => hd x (by simp [hx]))
    rw [List.cons_append]
    generalize ds ++ '.' :: 't' :: rest = r at ih2 ⊢
    have h1 : matchChunk ['.', 't'] (c :: r) = none := by
      simp [matchChunk, Ne.symm hc.2]
    simp only [matchStar, h1, if_neg hc.1]
    exact ih2

theorem matchRecordPattern_recordName (index term : Nat) :
    matchRecordPattern (recordName index term) = true := by
  unfold matchRecordPattern recordName
  have h1 : matchChunk ['i'] ('i' :: (fmtUint index ++ '.' :: 't' :: fmtUint term))
      = some (fmtUint index ++ '.' :: 't' :: fmtUint term) := by
    simp [matchChunk]
  rw [h1]
  simp only [matchStar_digits _ _ (fmtUint_digits index)]
  have : ¬ '/' ∈ fmtUint term := fun h => (digit_ne_sep (fmtUint_digits term _ h)).1 rfl
  simpa using this

theorem matchStar_some (t t2 : Str) (h : matchStar ['.', 't'] t = some t2) :
    ∃ pre, t = pre ++ '.' :: 't' :: t2 ∧ '/' ∉ pre := by
  induction t with
  | nil => simp [matchStar, matchChunk] at h
  | cons c t ih =>
    simp only [matchStar] at h
    cases hm : matchChunk ['.', 't'] (c :: t) with
    | some r =>
      rw [hm] at h
      simp only [Option.some.injEq] at h
      subst h
      refine ⟨[], ?_, by simp⟩
      cases t with
      | nil => simp [matchChunk] at hm
      | cons x t =>
        simp only [matchChunk] at hm
        by_cases h1 : '.' = c
        · by_cases h2 : 't' = x
          · simp [h1, h2] at hm
            simp [← h1, ← h2, hm]
          · simp [h1, h2] at hm
        · simp [h1] at hm
    | none =>
      rw [hm] at h
      by_cases hc : c = '/'
      · simp [hc] at h
      · simp only [hc, if_false] at h
        obtain ⟨pre, e, hp⟩ := ih h
        refine ⟨c :: pre, by simp [e], ?_⟩
        simp only [List.mem_cons, not_or]
        exact ⟨fun e => hc e.symm, hp⟩

theorem matchRecordPattern_shape (n : Str) (h : matchRecordPattern n = true) :
    ∃ t, n = 'i' :: t ∧ '/' ∉ t := by
  unfold matchRecordPattern at h
  cases n with
  | nil => simp [matchChunk] at h
  | cons c t =>
    by_cases hc : 'i' = c
    · subst hc
      have h1 : matchChunk ['i'] ('i' :: t) = some t := by simp [matchChunk]
      rw [h1] at h
      simp only at h
      cases hm : matchStar ['.', 't'] t with
      | none => rw [hm] at h; simp at h
      | some t2 =>
        rw [hm] at h
        obtain ⟨pre, e, hp⟩ := matchStar_some t t2 hm
        refine ⟨t, rfl, ?_⟩
        have h2 : '/' ∉ t2 := by simpa using h
        rw [e]
        simp only [List.mem_append, List.mem_cons, not_or]
        exact ⟨hp, by decide, by decide, h2⟩
    · have h1 : matchChunk ['i'] (c :: t) = none := by simp [matchChunk, hc]
      rw [h1] at h
      simp at h

theorem matchRecordPattern_normal (n : Str) (h : matchRecordPattern n = true) :
    NormalName n := by
  obtain ⟨t, e, ht⟩ := matchRecordPattern_shape n h
  subst e
  refine ⟨by simp, ?_, by simp, by simp⟩
  simp only [List.mem_cons, not_or]
  exact ⟨by decide, ht⟩

theorem recordName_normal (index term : Nat) : NormalName (recordName index term) :=
  matchRecordPattern_normal _ (matchRecordPattern_recordName index term)

theorem filepathBase_filename (ss : diskSideloadStorage) (index term : Nat) :
    filepathBase (filename ss index term) = recordName index term :=
  filepathBase_join _ _ (recordName_normal index term)

theorem recordName_index (index term : Nat) (hi : index < 2 ^ 64) :
    parseUint (upToDot ((recordName index term).drop 1)) = (index, none) := by
  unfold recordName
  simp only [List.drop_succ_cons, List.drop_zero]
  rw [upToDot_digits _ _ (fmtUint_digits index)]
  exact parseUint_fmtUint index hi

/-! ## Facts about patterns -/

theorem matchChunkAux_literal (chunk : Str) :
    (∀ c ∈ chunk, c ≠ '[' ∧ c ≠ '?' ∧ c ≠ '\\') →
    ∀ (fuel : Nat) (s : Str) (failed : Bool), chunk.length ≤ fuel →
      matchChunkAux fuel chunk s failed = some (if failed then none else matchChunk chunk s) := by
  induction chunk with
  | nil =>
    intro _ fuel s failed _
    cases fuel <;> simp [matchChunkAux, matchChunk]
  | cons c rest ih =>
    intro hlit fuel s failed hlen
    obtain ⟨h1, h2, h3⟩ := hlit c (by simp)
    have hrest : ∀ x ∈ rest, x ≠ '[' ∧ x ≠ '?' ∧ x ≠ '\\' := fun x hx => hlit x (by simp [hx])
    cases fuel with
    | zero => simp at hlen
    | succ fuel =>
      have hl : rest.length ≤ fuel := by simpa using hlen
      simp only [matchChunkAux, h1, h2, h3, if_false]
      rw [ih hrest fuel _ _ hl]
      cases failed with
      | true => simp
      | false =>
        cases s with
        | nil => simp [matchChunk]
        | cons x xs =>
          by_cases hcx : c = x
          · subst hcx; simp [matchChunk]
          · have : x ≠ c := fun e => hcx e.symm
            simp [matchChunk, hcx, this]

theorem matchChunkGo_literal (chunk s : Str)
    (hlit : ∀ c ∈ chunk, c ≠ '[' ∧ c ≠ '?' ∧ c ≠ '\\') :
    matchChunkGo chunk s = some (matchChunk chunk s) := by
  unfold matchChunkGo
  rw [matchChunkAux_literal chunk hlit _ s false (le_refl _)]
  simp

theorem scanLoop_literal (p : Str) (tail : Str) :
    (∀ c ∈ p, c ≠ '\\' ∧ c ≠ '[' ∧ c ≠ '*') →
    scanLoop (p ++ '*' :: tail) false false = (p, '*' :: tail) := by
  induction p with
  | nil => intro _; simp [scanLoop]
  | cons c p ih =>
    intro h
    obtain ⟨h1, h2, h3⟩ := h c (by simp)
    have ih2 := ih (fun x hx => h x (by simp [hx]))
    simp only [List.cons_append, scanLoop, h1, h2, h3]
    by_cases hc : c = ']'
    · simp [hc, ih2]
    · simp [hc, ih2]

theorem matchStar_of_chunk (chunk t t2 : Str) (h : matchChunk chunk t = some t2) :
    matchStar chunk t = some t2 := by
  cases t with
  | nil => simpa [matchStar] using h
  | cons c rest => simp [matchStar, h]

theorem starSearch_literal (chunk : Str)
    (hlit : ∀ c ∈ chunk, c ≠ '[' ∧ c ≠ '?' ∧ c ≠ '\\') :
    ∀ t : Str, matchChunk chunk t = none →
      starSearch chunk false t = some (matchStar chunk t) := by
  intro t
  induction t with
  | nil =>
    intro h
    simp [starSearch, matchStar, h]
  | cons c rest ih =>
    intro h
    by_cases hc : c = '/'
    · subst hc
      simp [starSearch, matchStar, h]
    · simp only [starSearch, matchStar, h, hc, if_false, matchChunkGo_literal chunk rest hlit]
      cases hr : matchChunk chunk rest with
      | some t2 => simp [matchStar_of_chunk chunk rest t2 hr]
      | none => simp only [Bool.false_eq_true, false_and, if_false]; exact ih hr

theorem scanChunk_record1 : scanChunk "i*.t*".toList = (false, ['i'], "*.t*".toList) := by
  decide

theorem scanChunk_record2 : scanChunk "*.t*".toList = (true, ['.', 't'], ['*']) := by
  decide

theorem scanChunk_record3 : scanChunk ['*'] = (true, [], []) := by
  decide

theorem checkRest_record2 : checkRest 5 "*.t*".toList = none := by
  decide

theorem checkRest_record3 : checkRest 2 ['*'] = none := by
  decide

theorem matchLoop_star (fuel : Nat) (t : Str) :
    matchLoop (fuel + 1) ['*'] t = (!t.contains '/', none) := by
  simp [matchLoop, scanChunk_record3]

theorem matchLoop_record2 (fuel : Nat) (t : Str) :
    matchLoop (fuel + 2) "*.t*".toList t =
      match matchStar ['.', 't'] t with
      | none => (false, none)
      | some t2 => (!t2.contains '/', none) := by
  have hlit : ∀ c ∈ ['.', 't'], c ≠ '[' ∧ c ≠ '?' ∧ c ≠ '\\' := by decide
  have hp : "*.t*".toList ≠ [] := by decide
  rw [matchLoop, if_neg hp, scanChunk_record2]
  simp only [matchChunkGo_literal _ t hlit]
  cases hm : matchChunk ['.', 't'] t with
  | some t2 =>
    rw [matchStar_of_chunk _ t t2 hm]
    simp [matchLoop_star]
  | none =>
    have hss := starSearch_literal ['.', 't'] hlit t hm
    cases hs : matchStar ['.', 't'] t with
    | some t2 =>
      rw [hs] at hss
      simp [hss, matchLoop_star]
    | none =>
      rw [hs] at hss
      simp [hss, checkRest_record3]

theorem filepathMatch_record (n : Str) :
    filepathMatch "i*.t*".toList n = (matchRecordPattern n, none) := by
  have hlit : ∀ c ∈ ['i'], c ≠ '[' ∧ c ≠ '?' ∧ c ≠ '\\' := by decide
  have hp : "i*.t*".toList ≠ [] := by decide
  have hlen : "i*.t*".toList.length + 1 = 4 + 2 := by decide
  unfold filepathMatch matchRecordPattern
  rw [hlen, matchLoop, if_neg hp, scanChunk_record1]
  simp only [matchChunkGo_literal _ n hlit]
  cases hm : matchChunk ['i'] n with
  | some t =>
    simp only [matchLoop_record2]
    cases hs : matchStar ['.', 't'] t <;> simp [hs]
  | none =>
    have hc : checkRest 5 ['*', '.', 't', '*'] = none := by decide
    simp [hc]

theorem globNames_record (dir : Str) : ∀ (names acc : List Str),
    globNames "i*.t*".toList dir names acc =
      (acc ++ (names.filter matchRecordPattern).map (fun n => filepathJoin [dir, n]), none) := by
  intro names
  induction names with
  | nil => intro acc; simp [globNames]
  | cons n ns ih =>
    intro acc
    rw [globNames, filepathMatch_record]
    by_cases hm : matchRecordPattern n = true
    · simp only [hm]
      rw [ih, List.filter_cons_of_pos hm]
      simp
    · have hf : matchRecordPattern n = false := by simpa using hm
      simp only [hf]
      rw [ih, List.filter_cons_of_neg hm]

/-! ## Facts about `filepath.Glob` -/

theorem takeWhile_noSep (xs rest : Str) (hxs : ∀ c ∈ xs, c ≠ '/')
    (hrest : rest = [] ∨ ∃ t, rest = '/' :: t) :
    (xs ++ rest).takeWhile (fun c => c != '/') = xs := by
  induction xs with
  | nil => rcases hrest with h | ⟨t, h⟩ <;> subst h <;> simp [List.takeWhile]
  | cons c cs ih =>
    have hc : c ≠ '/' := hxs c (by simp)
    rw [List.cons_append, List.takeWhile_cons, ih (fun x hx => hxs x (by simp [hx]))]
    simp [hc]

theorem dropWhile_noSep (xs rest : Str) (hxs : ∀ c ∈ xs, c ≠ '/')
    (hrest : rest = [] ∨ ∃ t, rest = '/' :: t) :
    (xs ++ rest).dropWhile (fun c => c != '/') = rest := by
  induction xs with
  | nil => rcases hrest with h | ⟨t, h⟩ <;> subst h <;> simp [List.dropWhile]
  | cons c cs ih =>
    have hc : c ≠ '/' := hxs c (by simp)
    rw [List.cons_append, List.dropWhile_cons, ih (fun x hx => hxs x (by simp [hx]))]
    simp [hc]

theorem filepathSplit_append (pre n : Str) (h2 : '/' ∉ n)
    (hpre : pre = [] ∨ ∃ q, pre = q ++ ['/']) : filepathSplit (pre ++ n) = (pre, n) := by
  have hno : ∀ c ∈ n.reverse, c ≠ '/' := by
    intro c hc e
    subst e
    exact h2 (List.mem_reverse.mp hc)
  have hrest : pre.reverse = [] ∨ ∃ t, pre.reverse = '/' :: t := by
    rcases hpre with h | ⟨q, h⟩
    · left; simp [h]
    · right; exact ⟨q.reverse, by simp [h]⟩
  unfold filepathSplit
  rw [List.reverse_append, takeWhile_noSep _ _ hno hrest, dropWhile_noSep _ _ hno hrest]
  simp

theorem recordPattern_normal : NormalName "i*.t*".toList := by
  refine ⟨by decide, by decide, by decide, by decide⟩

/-- The pattern that `TruncateTo` hands to `filepath.Glob`. -/
theorem truncatePattern_eq (dir : Str) :
    filepathJoin [dir, "i*.t*".toList] = joinPrefix dir ++ "i*.t*".toList :=
  filepathJoin_pair dir _ recordPattern_normal

theorem truncatePattern_split (dir : Str) :
    filepathSplit (filepathJoin [dir, "i*.t*".toList]) = (joinPrefix dir, "i*.t*".toList) := by
  rw [truncatePattern_eq]
  exact filepathSplit_append _ _ (by decide) (joinPrefix_tail dir)

theorem hasMeta_append (a b : Str) : hasMeta (a ++ b) = (hasMeta a || hasMeta b) := by
  simp [hasMeta, List.any_append]

theorem truncatePattern_hasMeta (dir : Str) :
    hasMeta (filepathJoin [dir, "i*.t*".toList]) = true := by
  rw [truncatePattern_eq, hasMeta_append]
  have : hasMeta "i*.t*".toList = true := by decide
  rw [this, Bool.or_true]

theorem globNames_shape (file x : Str) (present : Bool) :
    (globNames file x (if present then [file] else []) []).2 ≠ none ∨
      globNames file x (if present then [file] else []) [] = ([], none) ∨
      ∃ y, globNames file x (if present then [file] else []) [] = ([y], none) := by
  cases present with
  | false => right; left; simp [globNames]
  | true =>
    simp only [if_true, globNames]
    rcases hm : filepathMatch file file with ⟨b, e⟩
    cases e with
    | some err => left; simp
    | none =>
      cases b with
      | true => right; right; exact ⟨filepathJoin [x, file], by simp [globNames]⟩
      | false => right; left; simp [globNames]

theorem globAbove_shape (file : Str) (present : Bool) (m : List Str)
    (hm : m = [] ∨ ∃ x, m = [x]) :
    (globAbove present file m []).2 ≠ none ∨ globAbove present file m [] = ([], none) ∨
      ∃ y, globAbove present file m [] = ([y], none) := by
  rcases hm with h | ⟨x, h⟩
  · subst h; right; left; simp [globAbove]
  · subst h
    simp only [globAbove]
    rcases globNames_shape file x present with h1 | h1 | ⟨y, h1⟩
    · left
      rcases hg : globNames file x (if present then [file] else []) [] with ⟨m2, e⟩
      rw [hg] at h1
      cases e with
      | none => exact absurd rfl h1
      | some err => simp
    · right; left; rw [h1]
    · right; right; exact ⟨y, by rw [h1]⟩

theorem globDirs_shape (present : Bool) : ∀ (fuel depth : Nat) (p : Str),
    (globDirs present fuel depth p).2 ≠ none ∨ globDirs present fuel depth p = ([], none) ∨
      ∃ y, globDirs present fuel depth p = ([y], none) := by
  intro fuel
  induction fuel with
  | zero => intro depth p; left; simp [globDirs]
  | succ fuel ih =>
    intro depth p
    rw [globDirs]
    by_cases hdep : depth = 10000
    · rw [if_pos hdep]; left; simp
    rw [if_neg hdep]
    cases hv : (filepathMatch p []).2 with
    | some e => left; simp
    | none =>
      simp only
      by_cases h1 : hasMeta p = false
      · rw [if_pos h1]
        cases present with
        | true => right; right; exact ⟨p, by simp⟩
        | false => right; left; simp
      · rw [if_neg h1]
        by_cases h2 : hasMeta (cleanGlobPath (filepathSplit p).1) = false
        · rw [if_pos h2]
          exact globNames_shape _ _ present
        · rw [if_neg h2]
          by_cases h3 : cleanGlobPath (filepathSplit p).1 = p
          · rw [if_pos h3]; left; simp
          · rw [if_neg h3]
            rcases hg : globDirs present fuel (depth + 1)
              (cleanGlobPath (filepathSplit p).1) with ⟨m, e⟩
            cases e with
            | some err => left; simp
            | none =>
              simp only
              have := ih (depth + 1) (cleanGlobPath (filepathSplit p).1)
              rw [hg] at this
              apply globAbove_shape
              rcases this with h | h | ⟨y, h⟩
              · exact absurd rfl h
              · left; exact (Prod.mk.inj h).1
              · right; exact ⟨y, (Prod.mk.inj h).1⟩

theorem globAbove_absent (file : Str) : ∀ (m acc : List Str),
    globAbove false file m acc = (acc, none) := by
  intro m
  induction m with
  | nil => intro acc; simp [globAbove]
  | cons x xs ih => intro acc; simp [globAbove, globNames, ih]

/-- An error of `Glob` at the directory part when the directory is absent is
an error when it is present: it comes from a check of the pattern. -/
theorem globDirs_error_absent : ∀ (fuel depth : Nat) (p : Str),
    (globDirs false fuel depth p).2 ≠ none → (globDirs true fuel depth p).2 ≠ none := by
  intro fuel
  induction fuel with
  | zero => intro depth p _; simp [globDirs]
  | succ fuel ih =>
    intro depth p
    rw [globDirs, globDirs]
    by_cases hdep : depth = 10000
    · rw [if_pos hdep, if_pos hdep]; simp
    rw [if_neg hdep, if_neg hdep]
    cases hv : (filepathMatch p []).2 with
    | some e => simp
    | none =>
      simp only
      by_cases h1 : hasMeta p = false
      · rw [if_pos h1, if_pos h1]; simp
      · rw [if_neg h1, if_neg h1]
        by_cases h2 : hasMeta (cleanGlobPath (filepathSplit p).1) = false
        · rw [if_pos h2, if_pos h2]
          simp [globNames]
        · rw [if_neg h2, if_neg h2]
          by_cases h3 : cleanGlobPath (filepathSplit p).1 = p
          · rw [if_pos h3, if_pos h3]; simp
          · rw [if_neg h3, if_neg h3]
            rcases hg : globDirs false fuel (depth + 1)
              (cleanGlobPath (filepathSplit p).1) with ⟨m, e⟩
            have ih2 := ih (depth + 1) (cleanGlobPath (filepathSplit p).1)
            rw [hg] at ih2
            cases e with
            | some err =>
              have ih3 := ih2 (by simp)
              rcases hg2 : globDirs true fuel (depth + 1)
                (cleanGlobPath (filepathSplit p).1) with ⟨m2, e2⟩
              rw [hg2] at ih3
              cases e2 with
              | none => exact absurd rfl ih3
              | some err2 => simp
            | none =>
              simp only [globAbove_absent]
              intro h
              exact absurd rfl h

theorem globEach_absent (me : Option GoError) (file : Str) : ∀ (m acc : List Str),
    globEach ⟨none, me⟩ file m acc = (acc, none) := by
  intro m
  induction m with
  | nil => intro acc; simp [globEach]
  | cons x xs ih => intro acc; simp [globEach, globDisk, ih]

theorem globDisk_record (es : List (Str × Bytes)) (me : Option GoError) (g : Str) :
    globDisk ⟨some es, me⟩ g "i*.t*".toList [] =
      ((matchedNames es).map (fun n => filepathJoin [g, n]), none) := by
  unfold globDisk matchedNames
  simp only
  rw [globNames_record]
  simp

theorem filepathGlob_invalid (d : Disk) (pattern : Str) (e : GoError)
    (hv : (filepathMatch pattern []).2 = some e) : filepathGlob d pattern = ([], some e) := by
  unfold filepathGlob
  rw [hv]

/-- `filepath.Glob` in `TruncateTo` once the pattern has passed the check. -/
theorem filepathGlob_valid (d : Disk) (dir : Str)
    (hv : (filepathMatch (filepathJoin [dir, "i*.t*".toList]) []).2 = none) :
    filepathGlob d (filepathJoin [dir, "i*.t*".toList]) =
      if hasMeta (cleanGlobPath (joinPrefix dir)) = false then
        globDisk d (cleanGlobPath (joinPrefix dir)) "i*.t*".toList []
      else if cleanGlobPath (joinPrefix dir) = filepathJoin [dir, "i*.t*".toList] then
        ([], some GoError.errBadPattern)
      else
        match globDirs d.entries.isSome (filepathJoin [dir, "i*.t*".toList]).length 1
            (cleanGlobPath (joinPrefix dir)) with
        | (_, some e) => ([], some e)
        | (m, none) => globEach d "i*.t*".toList m [] := by
  unfold filepathGlob
  rw [hv]
  simp only
  rw [if_neg (by rw [truncatePattern_hasMeta]; simp), truncatePattern_split]

/-- What `filepath.Glob` returns in `TruncateTo` when the directory exists:
an error, nothing, or the matching files of the directory under one path of
it; which of the three depends on the path and not on the files. -/
theorem filepathGlob_present (dir : Str) :
    (∃ e, ∀ es me, filepathGlob ⟨some es, me⟩ (filepathJoin [dir, "i*.t*".toList])
        = ([], some e)) ∨
    (∀ es me, filepathGlob ⟨some es, me⟩ (filepathJoin [dir, "i*.t*".toList]) = ([], none)) ∨
    (∃ g, ∀ es me, filepathGlob ⟨some es, me⟩ (filepathJoin [dir, "i*.t*".toList])
        = ((matchedNames es).map (fun n => filepathJoin [g, n]), none)) := by
  cases hv : (filepathMatch (filepathJoin [dir, "i*.t*".toList]) []).2 with
  | some e => left; exact ⟨e, fun es me => filepathGlob_invalid _ _ e hv⟩
  | none =>
    by_cases h2 : hasMeta (cleanGlobPath (joinPrefix dir)) = false
    · right; right
      refine ⟨cleanGlobPath (joinPrefix dir), fun es me => ?_⟩
      rw [filepathGlob_valid _ dir hv, if_pos h2]
      exact globDisk_record es me _
    · by_cases h3 : cleanGlobPath (joinPrefix dir) = filepathJoin [dir, "i*.t*".toList]
      · left
        refine ⟨GoError.errBadPattern, fun es me => ?_⟩
        rw [filepathGlob_valid _ dir hv, if_neg h2, if_pos h3]
      · rcases globDirs_shape true (filepathJoin [dir, "i*.t*".toList]).length 1
          (cleanGlobPath (joinPrefix dir)) with h | h | ⟨y, h⟩
        · left
          rcases hg : globDirs true (filepathJoin [dir, "i*.t*".toList]).length 1
            (cleanGlobPath (joinPrefix dir)) with ⟨m, e⟩
          rw [hg] at h
          cases e with
          | none => exact absurd rfl h
          | some err =>
            refine ⟨err, fun es me => ?_⟩
            rw [filepathGlob_valid _ dir hv, if_neg h2, if_neg h3]
            simp only [Option.isSome_some, hg]
        · right; left
          intro es me
          rw [filepathGlob_valid _ dir hv, if_neg h2, if_neg h3]
          simp only [Option.isSome_some, h, globEach]
        · right; right
          refine ⟨y, fun es me => ?_⟩
          rw [filepathGlob_valid _ dir hv, if_neg h2, if_neg h3]
          simp only [Option.isSome_some, h, globEach, globDisk_record]

theorem filepathGlob_absent (dir : Str) (me : Option GoError) :
    (filepathGlob ⟨none, me⟩ (filepathJoin [dir, "i*.t*".toList])).2 ≠ none ∨
      filepathGlob ⟨none, me⟩ (filepathJoin [dir, "i*.t*".toList]) = ([], none) := by
  cases hv : (filepathMatch (filepathJoin [dir, "i*.t*".toList]) []).2 with
  | some e => left; rw [filepathGlob_invalid _ _ e hv]; simp
  | none =>
    rw [filepathGlob_valid _ dir hv]
    by_cases h2 : hasMeta (cleanGlobPath (joinPrefix dir)) = false
    · right; rw [if_pos h2]; simp [globDisk]
    · rw [if_neg h2]
      by_cases h3 : cleanGlobPath (joinPrefix dir) = filepathJoin [dir, "i*.t*".toList]
      · left; rw [if_pos h3]; simp
      · rw [if_neg h3]
        rcases hg : globDirs (Disk.entries ⟨none, me⟩).isSome
          (filepathJoin [dir, "i*.t*".toList]).length 1
          (cleanGlobPath (joinPrefix dir)) with ⟨m, e⟩
        cases e with
        | some err => left; simp
        | none => right; simp [globEach_absent]

/-- When `filepath.Glob` returns no error at an existing directory, it returns
no match and no error once the directory is gone. -/
theorem filepathGlob_absent_of_present (dir : Str) (es : List (Str × Bytes))
    (me me2 : Option GoError)
    (h : (filepathGlob ⟨some es, me⟩ (filepathJoin [dir, "i*.t*".toList])).2 = none) :
    filepathGlob ⟨none, me2⟩ (filepathJoin [dir, "i*.t*".toList]) = ([], none) := by
  rcases filepathGlob_absent dir me2 with ha | ha
  · exfalso
    apply ha
    cases hv : (filepathMatch (filepathJoin [dir, "i*.t*".toList]) []).2 with
    | some e => rw [filepathGlob_invalid _ _ e hv] at h; simp at h
    | none =>
      rw [filepathGlob_valid _ dir hv] at h ⊢
      by_cases h2 : hasMeta (cleanGlobPath (joinPrefix dir)) = false
      · rw [if_pos h2]; simp [globDisk]
      · rw [if_neg h2] at h ⊢
        by_cases h3 : cleanGlobPath (joinPrefix dir) = filepathJoin [dir, "i*.t*".toList]
        · rw [if_pos h3] at h; simp at h
        · rw [if_neg h3] at h ⊢
          simp only [Option.isSome_some, Option.isSome_none] at h ⊢
          rcases hg : globDirs false (filepathJoin [dir, "i*.t*".toList]).length 1
            (cleanGlobPath (joinPrefix dir)) with ⟨m, e⟩
          cases e with
          | none => simp [globEach_absent]
          | some err =>
            exfalso
            have hne := globDirs_error_absent (filepathJoin [dir, "i*.t*".toList]).length 1
              (cleanGlobPath (joinPrefix dir)) (by rw [hg]; simp)
            rcases hg2 : globDirs true (filepathJoin [dir, "i*.t*".toList]).length 1
              (cleanGlobPath (joinPrefix dir)) with ⟨m2, e2⟩
            rw [hg2] at hne h
            cases e2 with
            | none => exact hne rfl
            | some err2 => simp at h
  · exact ha

theorem hasMeta_false_iff (s : Str) :
    hasMeta s = false ↔ ∀ c ∈ s, c ≠ '*' ∧ c ≠ '?' ∧ c ≠ '[' ∧ c ≠ '\\' := by
  unfold hasMeta
  rw [List.any_eq_false]
  constructor
  · intro h c hc
    have := h c hc
    simp only [decide_eq_true_eq, not_or] at this
    exact this
  · intro h c hc
    have := h c hc
    simp only [decide_eq_true_eq, not_or]
    exact this

theorem splitSep_chars (s : Str) : ∀ x ∈ splitSep s, ∀ c ∈ x, c ∈ s := by
  induction s with
  | nil => intro x hx c hc; simp [splitSep] at hx; subst hx; exact hc
  | cons a s ih =>
    intro x hx c hc
    simp only [splitSep] at hx
    by_cases ha : a = '/'
    · rw [if_pos ha] at hx
      rcases List.mem_cons.mp hx with h | h
      · subst h; simp at hc
      · exact List.mem_cons_of_mem _ (ih x h c hc)
    · rw [if_neg ha] at hx
      cases hs : splitSep s with
      | nil => exact absurd hs (splitSep_ne_nil s)
      | cons y ys =>
        rw [hs] at hx ih
        simp only [List.mem_cons] at hx
        rcases hx with h | h
        · subst h
          rcases List.mem_cons.mp hc with h2 | h2
          · rw [h2]; simp
          · exact List.mem_cons_of_mem _ (ih y (by simp) c h2)
        · exact List.mem_cons_of_mem _ (ih x (by simp [h]) c hc)

theorem cleanStep_mem (r : Bool) (stk : List Str) (c : Str) :
    ∀ x ∈ cleanStep r stk c, x ∈ stk ∨ x = c := by
  intro x hx
  unfold cleanStep at hx
  split at hx
  · exact Or.inl hx
  · split at hx
    · cases stk with
      | nil =>
        simp only at hx
        split at hx
        · simp at hx
        · simp only [List.mem_singleton] at hx; exact Or.inr hx
      | cons top rest =>
        simp only at hx
        split at hx
        · split at hx
          · exact Or.inl hx
          · rcases List.mem_cons.mp hx with h | h
            · exact Or.inr h
            · exact Or.inl h
        · exact Or.inl (List.mem_cons_of_mem _ hx)
    · rcases List.mem_cons.mp hx with h | h
      · exact Or.inr h
      · exact Or.inl h

theorem foldl_cleanStep_mem (r : Bool) : ∀ (comps stk : List Str),
    ∀ x ∈ comps.foldl (cleanStep r) stk, x ∈ stk ∨ x ∈ comps := by
  intro comps
  induction comps with
  | nil => intro stk x hx; exact Or.inl hx
  | cons c cs ih =>
    intro stk x hx
    simp only [List.foldl_cons] at hx
    rcases ih _ x hx with h | h
    · rcases cleanStep_mem r stk c x h with h2 | h2
      · exact Or.inl h2
      · exact Or.inr (by rw [h2]; simp)
    · exact Or.inr (List.mem_cons_of_mem _ h)

theorem joinSep_chars : ∀ (xs : List Str), ∀ c ∈ joinSep xs, c = '/' ∨ ∃ x ∈ xs, c ∈ x := by
  intro xs
  induction xs with
  | nil => intro c hc; simp [joinSep] at hc
  | cons a xs ih =>
    intro c hc
    cases xs with
    | nil =>
      simp only [joinSep] at hc
      exact Or.inr ⟨a, by simp, hc⟩
    | cons b xs =>
      simp only [joinSep, List.mem_append, List.mem_cons] at hc
      rcases hc with h | h | h
      · exact Or.inr ⟨a, by simp, h⟩
      · exact Or.inl h
      · rcases ih c h with h2 | ⟨x, hx, hcx⟩
        · exact Or.inl h2
        · exact Or.inr ⟨x, List.mem_cons_of_mem _ hx, hcx⟩

theorem joinPrefix_chars (dir : Str) : ∀ c ∈ joinPrefix dir, c = '/' ∨ c ∈ dir := by
  intro c hc
  unfold joinPrefix at hc
  split at hc
  · simp at hc
  · have hstack : ∀ x ∈ cleanStack dir, ∀ y ∈ x, y ∈ dir := by
      intro x hx y hy
      unfold cleanStack at hx
      rcases foldl_cleanStep_mem _ _ _ x hx with h | h
      · simp at h
      · exact splitSep_chars dir x h y hy
    have hjoin : ∀ y ∈ joinSep (cleanStack dir).reverse, y = '/' ∨ y ∈ dir := by
      intro y hy
      rcases joinSep_chars _ y hy with h | ⟨x, hx, hyx⟩
      · exact Or.inl h
      · exact Or.inr (hstack x (List.mem_reverse.mp hx) y hyx)
    unfold pathPrefix at hc
    split at hc
    · split at hc
      · simp only [List.mem_singleton] at hc; exact Or.inl hc
      · simp at hc
    · split at hc
      · rw [List.cons_append, List.mem_cons, List.mem_append, List.mem_singleton] at hc
        rcases hc with h | h | h
        · exact Or.inl h
        · exact hjoin c h
        · exact Or.inl h
      · rw [List.mem_append, List.mem_singleton] at hc
        rcases hc with h | h
        · exact hjoin c h
        · exact Or.inl h

theorem joinPrefix_noMeta (dir : Str) (h : hasMeta dir = false) :
    hasMeta (joinPrefix dir) = false := by
  rw [hasMeta_false_iff] at h ⊢
  intro c hc
  rcases joinPrefix_chars dir c hc with h1 | h1
  · subst h1; decide
  · exact h c h1

theorem cleanGlobPath_noMeta (p : Str) (h : hasMeta p = false) :
    hasMeta (cleanGlobPath p) = false := by
  unfold cleanGlobPath
  split
  · decide
  · split
    · exact h
    · rw [hasMeta_false_iff] at h ⊢
      intro c hc
      exact h c (List.mem_of_mem_dropLast hc)

theorem scanChunk_literal (q tail : Str) (hq : q ≠ [])
    (hlit : ∀ c ∈ q, c ≠ '\\' ∧ c ≠ '[' ∧ c ≠ '*') :
    scanChunk (q ++ '*' :: tail) = (false, q, '*' :: tail) := by
  cases q with
  | nil => exact absurd rfl hq
  | cons a q =>
    have ha : a ≠ '*' := (hlit a (by simp)).2.2
    unfold scanChunk
    have h1 : ((a :: q) ++ '*' :: tail).head? = some a := rfl
    have h2 : ((a :: q) ++ '*' :: tail).dropWhile (fun c => decide (c = '*'))
        = (a :: q) ++ '*' :: tail := by
      simp [List.dropWhile, ha]
    rw [h1, h2, scanLoop_literal _ _ hlit]
    simp [ha]

/-- The pattern of `TruncateTo` passes the check of `filepath.Glob` when the
path of the directory has no operator. -/
theorem truncatePattern_valid (dir : Str) (h : hasMeta dir = false) :
    (filepathMatch (filepathJoin [dir, "i*.t*".toList]) []).2 = none := by
  have hp := (hasMeta_false_iff _).mp (joinPrefix_noMeta dir h)
  have hq : ∀ c ∈ joinPrefix dir ++ ['i'], c ≠ '*' ∧ c ≠ '?' ∧ c ≠ '[' ∧ c ≠ '\\' := by
    intro c hc
    rcases List.mem_append.mp hc with h1 | h1
    · exact hp c h1
    · simp only [List.mem_singleton] at h1; subst h1; decide
  have hpat : filepathJoin [dir, "i*.t*".toList]
      = (joinPrefix dir ++ ['i']) ++ '*' :: ".t*".toList := by
    rw [truncatePattern_eq]
    simp
  have hsc := scanChunk_literal (joinPrefix dir ++ ['i']) ".t*".toList (by simp)
    (fun c hc => ⟨(hq c hc).2.2.2, (hq c hc).2.2.1, (hq c hc).1⟩)
  have hmc := matchChunkGo_literal (joinPrefix dir ++ ['i']) []
    (fun c hc => ⟨(hq c hc).2.2.1, (hq c hc).2.1, (hq c hc).2.2.2⟩)
  have hmc2 : matchChunk (joinPrefix dir ++ ['i']) [] = none := by
    cases hj : joinPrefix dir ++ ['i'] with
    | nil => simp at hj
    | cons a q => rfl
  rw [hmc2] at hmc
  have hcr : checkRest 5 ['*', '.', 't', '*'] = none := by decide
  rw [hpat]
  unfold filepathMatch
  rw [matchLoop, if_neg (by simp), hsc]
  simp [hmc, hcr]

/-- `filepath.Glob` in `TruncateTo` at a directory whose path has no operator:
the matching files of the directory, and no error. -/
theorem filepathGlob_literal (dir : Str) (h : hasMeta dir = false) (d : Disk) :
    filepathGlob d (filepathJoin [dir, "i*.t*".toList]) =
      globDisk d (cleanGlobPath (joinPrefix dir)) "i*.t*".toList [] := by
  rw [filepathGlob_valid d dir (truncatePattern_valid dir h),
    if_pos (cleanGlobPath_noMeta _ (joinPrefix_noMeta dir h))]

/-! ## Facts about `Put`, `Get` and `Purge` -/

theorem Put_present (ss : diskSideloadStorage) (d : Disk) (index term : Nat) (b : Bytes)
    (es : List (Str × Bytes)) (h : d.entries = some es) (fuel : Nat) :
    Put (fuel + 1) ss d index term b =
      some ⟨ss, { d with entries := some ((recordName index term, b) ::
        removeEntry (recordName index term) es) }, none, 1, 0⟩ := by
  simp [Put, PutWith, putLoop, writeFileSyncing, h, filepathBase_filename]

theorem Put_absent_ok (ss : diskSideloadStorage) (d : Disk) (index term : Nat) (b : Bytes)
    (h : d.entries = none) (hm : d.mkdirErr = none) (fuel : Nat) :
    Put (fuel + 2) ss d index term b =
      some ⟨{ ss with dirCreated := true },
        { d with entries := some [(recordName index term, b)] }, none, 2, 1⟩ := by
  simp [Put, PutWith, putLoop, writeFileSyncing, createDirWith, osMkdirAll, isNotExist, h, hm,
    filepathBase_filename, removeEntry]

theorem Put_absent_fail (ss : diskSideloadStorage) (d : Disk) (index term : Nat) (b : Bytes)
    (e : GoError) (h : d.entries = none) (hm : d.mkdirErr = some e) (fuel : Nat) :
    Put (fuel + 1) ss d index term b = some ⟨ss, d, some e, 1, 1⟩ := by
  simp [Put, PutWith, putLoop, writeFileSyncing, createDirWith, osMkdirAll, isNotExist, h, hm]

theorem Get_eq (ss : diskSideloadStorage) (d : Disk) (index term : Nat) :
    Get ss d index term =
      match d.entries with
      | none => ([], some GoError.errSideloadedFileNotFound)
      | some es =>
        match lookupEntry (recordName index term) es with
        | none => ([], some GoError.errSideloadedFileNotFound)
        | some b => (b, none) := by
  unfold Get readFile
  rw [filepathBase_filename]
  cases d.entries with
  | none => simp [isNotExist]
  | some es =>
    cases hl : lookupEntry (recordName index term) es <;> simp only [hl] <;> simp [isNotExist]

/-- The outcome of `Put` on the disk model, and the `Get` that follows it. -/
theorem Put_then_Get (ss : diskSideloadStorage) (d : Disk) (index term : Nat) (b : Bytes) :
    ∃ r, (∀ fuel, 2 ≤ fuel → Put fuel ss d index term b = some r) ∧
      r.ss.dir = ss.dir ∧
      (r.err = none → r.world.entries ≠ none ∧ Get r.ss r.world index term = (b, none)) ∧
      (d.entries ≠ none → r.err = none) := by
  cases h : d.entries with
  | some es =>
    refine ⟨⟨ss, { d with entries := some ((recordName index term, b) ::
        removeEntry (recordName index term) es) }, none, 1, 0⟩, fun fuel hf => ?_, ?_, ?_, ?_⟩
    · obtain ⟨k, rfl⟩ : ∃ k, fuel = k + 1 := ⟨fuel - 1, by omega⟩
      exact Put_present ss d index term b es h k
    · rfl
    · intro _
      simp [Get_eq, lookupEntry]
    · intro _; rfl
  | none =>
    cases hm : d.mkdirErr with
    | none =>
      refine ⟨⟨{ ss with dirCreated := true },
        { d with entries := some [(recordName index term, b)] }, none, 2, 1⟩,
        fun fuel hf => ?_, ?_, ?_, ?_⟩
      · obtain ⟨k, rfl⟩ : ∃ k, fuel = k + 2 := ⟨fuel - 2, by omega⟩
        exact Put_absent_ok ss d index term b h hm k
      · rfl
      · intro _
        simp [Get_eq, lookupEntry]
      · intro hne; exact absurd rfl hne
    | some e =>
      refine ⟨⟨ss, d, some e, 1, 1⟩, fun fuel hf => ?_, ?_, ?_, ?_⟩
      · obtain ⟨k, rfl⟩ : ∃ k, fuel = k + 1 := ⟨fuel - 1, by omega⟩
        exact Put_absent_fail ss d index term b e h hm k
      · rfl
      · intro he; simp at he
      · intro hne; exact absurd rfl hne

/-! ## Facts about `TruncateTo` -/

theorem nameIndex_recordName (i t : Nat) (hi : i < 2 ^ 64) : nameIndex (recordName i t) = i := by
  unfold nameIndex
  rw [recordName_index i t hi]

theorem goodName_recordName (i t : Nat) (hi : i < 2 ^ 64) : GoodName (recordName i t) :=
  ⟨matchRecordPattern_recordName i t, by rw [recordName_index i t hi]⟩

theorem lookupEntry_filter (q : Str → Bool) (m : Str) (es : List (Str × Bytes)) :
    lookupEntry m (es.filter (fun e => q e.1)) = if q m = true then lookupEntry m es else none := by
  induction es with
  | nil => simp [lookupEntry]
  | cons e es ih =>
    obtain ⟨k, v⟩ := e
    by_cases hq : q k = true
    · rw [List.filter_cons_of_pos (by simpa using hq)]
      by_cases hk : k = m
      · subst hk; simp [lookupEntry, hq]
      · simp only [lookupEntry, hk, if_false]; exact ih
    · rw [List.filter_cons_of_neg (by simpa using hq)]
      by_cases hk : k = m
      · subst hk; rw [ih]; simp [hq]
      · simp only [lookupEntry, hk, if_false]; exact ih

theorem lookupEntry_removeEntry (n m : Str) (es : List (Str × Bytes)) :
    lookupEntry m (removeEntry n es) = if m = n then none else lookupEntry m es := by
  unfold removeEntry
  have := lookupEntry_filter (fun k => decide (k ≠ n)) m es
  rw [this]
  by_cases h : m = n <;> simp [h]

theorem lookupEntry_isSome_mem (m : Str) (es : List (Str × Bytes)) :
    (lookupEntry m es).isSome = true ↔ m ∈ es.map Prod.fst := by
  induction es with
  | nil => simp [lookupEntry]
  | cons e es ih =>
    obtain ⟨k, v⟩ := e
    by_cases hk : k = m
    · subst hk; simp [lookupEntry]
    · simp only [lookupEntry, hk, if_false, List.map_cons, List.mem_cons]
      rw [ih]
      constructor
      · intro h; exact Or.inr h
      · rintro (h | h)
        · exact absurd h.symm hk
        · exact h

theorem lookupEntry_of_mem (es : List (Str × Bytes)) (hnd : (es.map Prod.fst).Nodup)
    (e : Str × Bytes) (he : e ∈ es) : lookupEntry e.1 es = some e.2 := by
  induction es with
  | nil => simp at he
  | cons x es ih =>
    obtain ⟨k, v⟩ := x
    simp only [List.map_cons, List.nodup_cons] at hnd
    rcases List.mem_cons.mp he with h | h
    · subst h; simp [lookupEntry]
    · have hk : k ≠ e.1 := by
        intro hk
        apply hnd.1
        rw [hk]
        exact List.mem_map_of_mem Prod.fst h
      simp only [lookupEntry, hk, if_false]
      exact ih hnd.2 h

theorem purgeFile_present (ss : diskSideloadStorage) (es : List (Str × Bytes))
    (me : Option GoError) (dir n : Str) (hn : NormalName n)
    (hex : (lookupEntry n es).isSome = true) :
    purgeFile ss ⟨some es, me⟩ (filepathJoin [dir, n]) =
      (⟨some (removeEntry n es), me⟩, sizeIn es n, none) := by
  unfold purgeFile osStat deleteFile sizeIn
  rw [filepathBase_join dir n hn]
  cases hl : lookupEntry n es with
  | none => simp [hl] at hex
  | some b => simp [hl]

theorem truncateLoop_step (ss : diskSideloadStorage) (index : Nat) (g n : Str) (rest : List Str)
    (d : Disk) (k s : Nat) (hn : GoodName n) :
    truncateLoop ss index (filepathJoin [g, n] :: rest) d k s =
      if index ≤ nameIndex n then truncateLoop ss index rest d k s
      else
        match purgeFile ss d (filepathJoin [g, n]) with
        | (d2, _, some err) =>
          (d2, k, s, wrapf (some err) "while purging %q".toList (filepathJoin [g, n]))
        | (d2, fileSize, none) => truncateLoop ss index rest d2 (k + 1) (s + fileSize) := by
  obtain ⟨hm, hp⟩ := hn
  obtain ⟨t, e, _⟩ := matchRecordPattern_shape n hm
  have hbase := filepathBase_join g n (matchRecordPattern_normal n hm)
  rw [truncateLoop]
  simp only [hbase]
  have hguard : ¬ (n.length < 1 ∨ n.head? ≠ some 'i') := by
    subst e; simp
  rw [if_neg hguard]
  unfold nameIndex
  rcases hpu : parseUint (upToDot (n.drop 1)) with ⟨i, pe⟩
  rw [hpu] at hp
  simp only at hp
  subst hp
  rfl

theorem truncateLoop_good (ss : diskSideloadStorage) (index : Nat) (g : Str) (me : Option GoError) :
    ∀ (ns : List Str) (es : List (Str × Bytes)) (k s : Nat),
      (∀ n ∈ ns, GoodName n) → ns.Nodup → (∀ n ∈ ns, (lookupEntry n es).isSome = true) →
      truncateLoop ss index (ns.map (fun n => filepathJoin [g, n])) ⟨some es, me⟩ k s =
        (⟨some (es.filter (fun e => decide (e.1 ∉ purgedNames index ns))), me⟩,
          k + (purgedNames index ns).length,
          s + ((purgedNames index ns).map (sizeIn es)).sum, none) := by
  intro ns
  induction ns with
  | nil =>
    intro es k s _ _ _
    simp [truncateLoop, purgedNames]
  | cons n ns ih =>
    intro es k s hgood hnd hex
    have hn : GoodName n := hgood n (by simp)
    have hgood2 : ∀ m ∈ ns, GoodName m := fun m hm => hgood m (by simp [hm])
    obtain ⟨hnot, hnd2⟩ := List.nodup_cons.mp hnd
    rw [List.map_cons, truncateLoop_step ss index g n _ _ k s hn]
    by_cases hidx : index ≤ nameIndex n
    · rw [if_pos hidx]
      have hp : purgedNames index (n :: ns) = purgedNames index ns := by
        unfold purgedNames
        rw [List.filter_cons_of_neg (by simpa using hidx)]
      rw [hp]
      exact ih es k s hgood2 hnd2 (fun m hm => hex m (by simp [hm]))
    · rw [if_neg hidx]
      have hp : purgedNames index (n :: ns) = n :: purgedNames index ns := by
        unfold purgedNames
        rw [List.filter_cons_of_pos (by simpa using hidx)]
      rw [hp, purgeFile_present ss es me g n (matchRecordPattern_normal n hn.1)
        (hex n (by simp))]
      simp only
      have hex2 : ∀ m ∈ ns, (lookupEntry m (removeEntry n es)).isSome = true := by
        intro m hm
        rw [lookupEntry_removeEntry]
        have : m ≠ n := fun e => hnot (e ▸ hm)
        rw [if_neg this]
        exact hex m (by simp [hm])
      rw [ih (removeEntry n es) (k + 1) (s + sizeIn es n) hgood2 hnd2 hex2]
      have hsize : (purgedNames index ns).map (sizeIn (removeEntry n es))
          = (purgedNames index ns).map (sizeIn es) := by
        apply List.map_congr_left
        intro m hm
        have hm2 : m ∈ ns := (List.mem_filter.mp hm).1
        have : m ≠ n := fun e => hnot (e ▸ hm2)
        unfold sizeIn
        rw [lookupEntry_removeEntry, if_neg this]
      rw [hsize]
      unfold removeEntry
      rw [List.filter_filter]
      have hfil : (es.filter (fun a => decide (a.1 ∉ purgedNames index ns) && decide (a.1 ≠ n)))
          = es.filter (fun e => decide (e.1 ∉ n :: purgedNames index ns)) := by
        apply List.filter_congr
        intro e _
        by_cases h1 : e.1 = n <;> by_cases h2 : e.1 ∈ purgedNames index ns <;> simp [h1, h2]
      rw [hfil]
      simp only [List.length_cons, List.map_cons, List.sum_cons, Prod.mk.injEq, true_and]
      exact ⟨by rw [Nat.add_assoc, Nat.add_comm 1], by rw [Nat.add_assoc], trivial⟩

theorem insertName_perm (n : Str) (l : List Str) : (insertName n l).Perm (n :: l) := by
  induction l with
  | nil => exact List.Perm.refl _
  | cons m ms ih =>
    unfold insertName
    split
    · exact List.Perm.refl _
    · exact (List.Perm.cons m ih).trans (List.Perm.swap n m ms)

theorem sortNames_perm (l : List Str) : (sortNames l).Perm l := by
  induction l with
  | nil => exact List.Perm.refl _
  | cons n ns ih =>
    unfold sortNames
    exact (insertName_perm n (sortNames ns)).trans (List.Perm.cons n ih)

theorem matchedNames_perm (es : List (Str × Bytes)) (h : AllRecords es) :
    (matchedNames es).Perm (es.map Prod.fst) := by
  unfold matchedNames
  have hall : ∀ a ∈ sortNames (es.map Prod.fst), matchRecordPattern a = true := by
    intro a ha
    have ha2 : a ∈ es.map Prod.fst := (sortNames_perm _).mem_iff.mp ha
    obtain ⟨e, he, rfl⟩ := List.mem_map.mp ha2
    obtain ⟨i, t, _, _, hname⟩ := h.2 e he
    rw [hname]
    exact matchRecordPattern_recordName i t
  rw [List.filter_eq_self.mpr hall]
  exact sortNames_perm _

theorem matchedNames_good (es : List (Str × Bytes)) (h : AllRecords es) :
    ∀ n ∈ matchedNames es, GoodName n := by
  intro n hn
  have hn2 : n ∈ es.map Prod.fst := (matchedNames_perm es h).mem_iff.mp hn
  obtain ⟨e, he, rfl⟩ := List.mem_map.mp hn2
  obtain ⟨i, t, hi, _, hname⟩ := h.2 e he
  rw [hname]
  exact goodName_recordName i t hi

theorem purged_size (index : Nat) (es : List (Str × Bytes)) (h : AllRecords es) :
    ((purgedNames index (matchedNames es)).map (sizeIn es)).sum =
      ((es.filter (fun e => decide (nameIndex e.1 < index))).map (fun e => e.2.length)).sum := by
  have hp : (purgedNames index (matchedNames es)).Perm
      ((es.filter (fun e => decide (nameIndex e.1 < index))).map Prod.fst) := by
    unfold purgedNames
    have h1 := (matchedNames_perm es h).filter (fun n => decide (nameIndex n < index))
    rw [List.filter_map] at h1
    exact h1
  rw [(hp.map (sizeIn es)).sum_eq, List.map_map]
  congr 1
  apply List.map_congr_left
  intro e he
  have he2 : e ∈ es := (List.mem_filter.mp he).1
  simp only [Function.comp, sizeIn, lookupEntry_of_mem es h.1 e he2]

theorem mem_matchedNames (es : List (Str × Bytes)) (n : Str) :
    n ∈ matchedNames es ↔ n ∈ es.map Prod.fst ∧ matchRecordPattern n = true := by
  unfold matchedNames
  rw [List.mem_filter, (sortNames_perm _).mem_iff]

theorem matchedNames_nodup (es : List (Str × Bytes)) (hnd : (es.map Prod.fst).Nodup) :
    (matchedNames es).Nodup := by
  unfold matchedNames
  exact List.Nodup.filter _ ((sortNames_perm _).nodup_iff.mpr hnd)

theorem TruncateTo_glob_error (ss : diskSideloadStorage) (d : Disk) (n : Nat) (e : GoError)
    (h : (filepathGlob d (filepathJoin [ss.dir, "i*.t*".toList])).2 = some e) :
    TruncateTo ss d n = (d, 0, some e) := by
  unfold TruncateTo
  rcases hg : filepathGlob d (filepathJoin [ss.dir, "i*.t*".toList]) with ⟨ms, err⟩
  rw [hg] at h
  simp only at h
  subst h
  rfl

theorem TruncateTo_no_match (ss : diskSideloadStorage) (d : Disk) (n : Nat)
    (h : filepathGlob d (filepathJoin [ss.dir, "i*.t*".toList]) = ([], none)) :
    TruncateTo ss d n =
      match d.entries with
      | none => (d, 0, none)
      | some [] => ({ d with entries := none }, 0, none)
      | some (_ :: _) =>
        (d, 0, some (GoError.wrapped (GoError.other 39) "while purging %q".toList ss.dir)) := by
  unfold TruncateTo
  rw [h]
  obtain ⟨entries, me⟩ := d
  cases entries with
  | none => simp [truncateLoop, osRemove, isNotExist]
  | some es =>
    cases es with
    | nil => simp [truncateLoop, osRemove, isNotExist, wrapf]
    | cons x xs => simp [truncateLoop, osRemove, isNotExist, wrapf]

/-- `TruncateTo` at a directory that `filepath.Glob` lists under the path `g`,
when the index of every matching file can be parsed. -/
theorem TruncateTo_own (ss : diskSideloadStorage) (es : List (Str × Bytes))
    (me : Option GoError) (n : Nat) (g : Str)
    (hglob : filepathGlob ⟨some es, me⟩ (filepathJoin [ss.dir, "i*.t*".toList])
      = ((matchedNames es).map (fun m => filepathJoin [g, m]), none))
    (hnd : (es.map Prod.fst).Nodup) (hgood : ∀ m ∈ matchedNames es, GoodName m) :
    TruncateTo ss ⟨some es, me⟩ n =
      if (purgedNames n (matchedNames es)).length = (matchedNames es).length then
        match osRemove
          ⟨some (es.filter (fun e => decide (e.1 ∉ purgedNames n (matchedNames es)))), me⟩
          ss.dir with
        | (d2, err) =>
          if !isNotExist err then
            (d2, ((purgedNames n (matchedNames es)).map (sizeIn es)).sum,
              wrapf err "while purging %q".toList ss.dir)
          else (d2, ((purgedNames n (matchedNames es)).map (sizeIn es)).sum, none)
      else
        (⟨some (es.filter (fun e => decide (e.1 ∉ purgedNames n (matchedNames es)))), me⟩,
          ((purgedNames n (matchedNames es)).map (sizeIn es)).sum, none) := by
  have hex : ∀ m ∈ matchedNames es, (lookupEntry m es).isSome = true := fun m hm =>
    (lookupEntry_isSome_mem m es).mpr ((mem_matchedNames es m).mp hm).1
  have hloop := truncateLoop_good ss n g me (matchedNames es) es 0 0 hgood
    (matchedNames_nodup es hnd) hex
  unfold TruncateTo
  rw [hglob]
  simp only [hloop, List.length_map, Nat.zero_add]

theorem TruncateTo_records (ss : diskSideloadStorage) (es : List (Str × Bytes))
    (me : Option GoError) (index : Nat) (g : Str)
    (hglob : filepathGlob ⟨some es, me⟩ (filepathJoin [ss.dir, "i*.t*".toList])
      = ((matchedNames es).map (fun m => filepathJoin [g, m]), none))
    (h : AllRecords es) :
    TruncateTo ss ⟨some es, me⟩ index =
      (⟨if es.filter (fun e => decide (index ≤ nameIndex e.1)) = [] then none
          else some (es.filter (fun e => decide (index ≤ nameIndex e.1))), me⟩,
        ((es.filter (fun e => decide (nameIndex e.1 < index))).map (fun e => e.2.length)).sum,
        none) := by
  have hperm := matchedNames_perm es h
  have hgood := matchedNames_good es h
  have hkeep : es.filter (fun e => decide (e.1 ∉ purgedNames index (matchedNames es)))
      = es.filter (fun e => decide (index ≤ nameIndex e.1)) := by
    apply List.filter_congr
    intro e he
    have hmem : e.1 ∈ matchedNames es := hperm.mem_iff.mpr (List.mem_map_of_mem Prod.fst he)
    by_cases hi : index ≤ nameIndex e.1
    · simp [purgedNames, hi, List.mem_filter]
    · simp [purgedNames, hi, List.mem_filter, hmem]
  rw [TruncateTo_own ss es me index g hglob h.1 hgood, hkeep, purged_size index es h]
  by_cases hall : ∀ n ∈ matchedNames es, decide (nameIndex n < index) = true
  · have hlen : (purgedNames index (matchedNames es)).length = (matchedNames es).length :=
      List.filter_length_eq_length.mpr hall
    have hempty : es.filter (fun e => decide (index ≤ nameIndex e.1)) = [] := by
      rw [List.filter_eq_nil_iff]
      intro e he
      have hmem : e.1 ∈ matchedNames es := hperm.mem_iff.mpr (List.mem_map_of_mem Prod.fst he)
      have := hall e.1 hmem
      simp only [decide_eq_true_eq] at this ⊢
      omega
    rw [if_pos hlen, hempty]
    simp [osRemove, isNotExist, wrapf]
  · have hlen : (purgedNames index (matchedNames es)).length ≠ (matchedNames es).length :=
      fun e => hall (List.filter_length_eq_length.mp e)
    have hne : es.filter (fun e => decide (index ≤ nameIndex e.1)) ≠ [] := by
      intro hnil
      apply hall
      intro n hn
      obtain ⟨e, he, rfl⟩ := List.mem_map.mp (hperm.mem_iff.mp hn)
      have := (List.filter_eq_nil_iff.mp hnil) e he
      simp only [decide_eq_true_eq] at this ⊢
      omega
    rw [if_neg hlen, if_neg hne]

theorem AllRecords_filter (es : List (Str × Bytes)) (q : Str × Bytes → Bool)
    (h : AllRecords es) : AllRecords (es.filter q) := by
  refine ⟨?_, fun e he => h.2 e (List.mem_filter.mp he).1⟩
  exact List.Nodup.sublist (List.Sublist.map Prod.fst (List.filter_sublist es)) h.1

theorem AllRecords_write (es : List (Str × Bytes)) (i t : Nat) (b : Bytes)
    (hi : i < 2 ^ 64) (ht : t < 2 ^ 64) (h : AllRecords es) :
    AllRecords ((recordName i t, b) :: removeEntry (recordName i t) es) := by
  have hf := AllRecords_filter es (fun e => decide (e.1 ≠ recordName i t)) h
  refine ⟨?_, ?_⟩
  · rw [List.map_cons, List.nodup_cons]
    refine ⟨?_, hf.1⟩
    intro hmem
    obtain ⟨e, he, hk⟩ := List.mem_map.mp hmem
    have := (List.mem_filter.mp he).2
    simp only [decide_eq_true_eq] at this
    exact this hk
  · intro e he
    rcases List.mem_cons.mp he with h1 | h1
    · exact ⟨i, t, hi, ht, by rw [h1]⟩
    · exact hf.2 e h1

/-- `Put` keeps a directory that `Put` has written one that `Put` has written. -/
theorem WrittenByPut_Put (fuel : Nat) (ss : diskSideloadStorage) (d : Disk) (i t : Nat)
    (b : Bytes) (r : PutResult Disk) (hi : i < 2 ^ 64) (ht : t < 2 ^ 64)
    (hw : WrittenByPut d) (hr : Put fuel ss d i t b = some r) : WrittenByPut r.world := by
  cases fuel with
  | zero => simp [Put, PutWith, putLoop] at hr
  | succ fuel =>
    cases he : d.entries with
    | some es =>
      rw [Put_present ss d i t b es he fuel] at hr
      simp only [Option.some.injEq] at hr
      subst hr
      intro es2 h2
      simp only [Option.some.injEq] at h2
      subst h2
      exact AllRecords_write es i t b hi ht (hw es he)
    | none =>
      cases hm : d.mkdirErr with
      | some e =>
        rw [Put_absent_fail ss d i t b e he hm fuel] at hr
        simp only [Option.some.injEq] at hr
        subst hr
        exact hw
      | none =>
        cases fuel with
        | zero =>
          simp [Put, PutWith, putLoop, writeFileSyncing, createDirWith, osMkdirAll, isNotExist,
            he, hm] at hr
        | succ fuel =>
          rw [Put_absent_ok ss d i t b he hm fuel] at hr
          simp only [Option.some.injEq] at hr
          subst hr
          intro es2 h2
          simp only [Option.some.injEq] at h2
          subst h2
          have := AllRecords_write [] i t b hi ht ⟨by simp, by simp⟩
          simpa [removeEntry] using this

theorem WrittenByPut_emptyDir (me : Option GoError) : WrittenByPut ⟨none, me⟩ := by
  intro es h
  simp at h

/-! ## Facts about directories of different ranges -/

theorem decodeUint_fmtUint (u : Nat) : decodeUint (fmtUint u) = u := by
  induction u using Nat.strong_induction_on with
  | _ u ih =>
    by_cases h : u < 10
    · rw [fmtUint_lt h]
      simp [decodeUint, digitChar_toNat h]
    · have hd : u % 10 < 10 := Nat.mod_lt _ (by decide)
      have ih2 := ih (u / 10) (by omega)
      unfold decodeUint at ih2 ⊢
      rw [fmtUint_ge (by omega), List.foldl_append, ih2]
      simp only [List.foldl_cons, List.foldl_nil, digitChar_toNat hd]
      omega

theorem fmtUint_injective (u v : Nat) (h : fmtUint u = fmtUint v) : u = v := by
  rw [← decodeUint_fmtUint u, ← decodeUint_fmtUint v, h]

theorem fmtUint_head_ne_minus (u : Nat) (rest : Str) : fmtUint u ≠ '-' :: rest := by
  intro h
  have hm : '-' ∈ fmtUint u := by rw [h]; simp
  exact absurd (fmtUint_digits u '-' hm).1 (by decide)

theorem fmtInt_injective (a b : Int) (h : fmtInt a = fmtInt b) : a = b := by
  unfold fmtInt at h
  by_cases ha : a < 0 <;> by_cases hb : b < 0
  · rw [if_pos ha, if_pos hb] at h
    have := fmtUint_injective _ _ (List.cons.inj h).2
    omega
  · rw [if_pos ha, if_neg hb] at h
    exact absurd h.symm (fmtUint_head_ne_minus _ _)
  · rw [if_neg ha, if_pos hb] at h
    exact absurd h (fmtUint_head_ne_minus _ _)
  · rw [if_neg ha, if_neg hb] at h
    have := fmtUint_injective _ _ h
    omega

theorem fmtInt_chars (z : Int) : ∀ c ∈ fmtInt z, c = '-' ∨ ('0' ≤ c ∧ c ≤ '9') := by
  intro c hc
  unfold fmtInt at hc
  split at hc
  · rcases List.mem_cons.mp hc with h | h
    · exact Or.inl h
    · exact Or.inr (fmtUint_digits _ c h)
  · exact Or.inr (fmtUint_digits _ c hc)

theorem fmtInt_no_sep (z : Int) : '/' ∉ fmtInt z ∧ '.' ∉ fmtInt z := by
  constructor
  · intro h
    rcases fmtInt_chars z _ h with h1 | h1
    · exact absurd h1 (by decide)
    · exact absurd h1.1 (by decide)
  · intro h
    rcases fmtInt_chars z _ h with h1 | h1
    · exact absurd h1 (by decide)
    · exact absurd h1.1 (by decide)

theorem fmtInt_ne_nil (z : Int) : fmtInt z ≠ [] := by
  unfold fmtInt
  split
  · simp
  · exact fmtUint_ne_nil _

theorem fmtInt_normal (z : Int) : NormalName (fmtInt z) := by
  refine ⟨fmtInt_ne_nil z, (fmtInt_no_sep z).1, ?_, ?_⟩
  · intro h
    exact (fmtInt_no_sep z).2 (by rw [h]; simp)
  · intro h
    exact (fmtInt_no_sep z).2 (by rw [h]; simp)

theorem leafName_normal (r p : Int) : NormalName (leafName r p) := by
  unfold leafName
  have hr := fmtInt_no_sep r
  have hp := fmtInt_no_sep p
  have hne := fmtInt_ne_nil r
  refine ⟨by simp, ?_, ?_, ?_⟩
  · simp only [List.mem_append, List.mem_cons, not_or]
    exact ⟨hr.1, by decide, hp.1⟩
  · intro h
    cases hf : fmtInt r with
    | nil => exact hne hf
    | cons c cs =>
      rw [hf] at h
      simp only [List.cons_append, List.cons.injEq] at h
      have : cs ++ '.' :: fmtInt p = [] := h.2
      simp at this
  · intro h
    cases hf : fmtInt r with
    | nil => exact hne hf
    | cons c cs =>
      rw [hf] at h
      simp only [List.cons_append, List.cons.injEq] at h
      have hc : '.' ∈ fmtInt r := by rw [hf, h.1]; simp
      exact hr.2 hc

theorem append_sep_inj (c : Char) : ∀ (a a2 b b2 : Str), c ∉ a → c ∉ a2 →
    a ++ c :: b = a2 ++ c :: b2 → a = a2 := by
  intro a
  induction a with
  | nil =>
    intro a2 b b2 _ h2 h
    cases a2 with
    | nil => rfl
    | cons x xs =>
      simp only [List.nil_append, List.cons_append, List.cons.injEq] at h
      exact absurd (by rw [← h.1]; simp) h2
  | cons y ys ih =>
    intro a2 b b2 h1 h2 h
    cases a2 with
    | nil =>
      simp only [List.nil_append, List.cons_append, List.cons.injEq] at h
      exact absurd (by rw [h.1]; simp) h1
    | cons x xs =>
      simp only [List.cons_append, List.cons.injEq] at h
      simp only [List.mem_cons, not_or] at h1 h2
      rw [h.1, ih xs b b2 h1.2 h2.2 h.2]

theorem leafName_injective (r1 r2 p1 p2 : Int) (h : leafName r1 p1 = leafName r2 p2) :
    r1 = r2 :=
  fmtInt_injective r1 r2
    (append_sep_inj '.' _ _ _ _ (fmtInt_no_sep r1).2 (fmtInt_no_sep r2).2 h)

theorem pathPrefix_cons (r : Bool) (n : Str) (stk : List Str) (hn : n ≠ []) :
    pathPrefix r (n :: stk) = renderPath r (n :: stk) ++ ['/'] := by
  unfold pathPrefix renderPath
  have hj : joinSep (stk.reverse ++ [n]) ≠ [] := by
    rw [joinSep_snoc]
    split <;> simp [hn]
  cases r <;> simp [hj]

theorem filepathClean_snoc2 (q b c : Str) (hq : q ≠ []) (hb : NormalName b)
    (hc : NormalName c) :
    filepathClean ((q ++ '/' :: b) ++ '/' :: c) = filepathClean (q ++ '/' :: b) ++ '/' :: c := by
  have hp : q ++ '/' :: b ≠ [] := by simp
  rw [filepathClean_snoc _ c hp hc, cleanStack_snoc q b hq hb, pathPrefix_cons _ _ _ hb.1]
  unfold filepathClean
  rw [if_neg hp, cleanStack_snoc q b hq hb]
  simp

theorem filepathClean_ne_nil (p : Str) : filepathClean p ≠ [] := by
  unfold filepathClean renderPath
  split
  · simp
  · split
    · simp
    · split
      · simp
      · assumption

/-- The path of a storage directory is its bucket directory, a separator and
its leaf name. -/
theorem newDiskSideloadStorage_dir (r p : Int) (baseDir : Str) :
    (newDiskSideloadStorage r p baseDir).1.dir =
      filepathJoin [baseDir, "sideloading".toList, fmtInt (goRem r 1000)]
        ++ '/' :: leafName r p := by
  have hsl : NormalName "sideloading".toList := by
    refine ⟨by decide, by decide, by decide, by decide⟩
  have hb := fmtInt_normal (goRem r 1000)
  have hl := leafName_normal r p
  unfold newDiskSideloadStorage
  simp only
  change filepathJoin [baseDir, "sideloading".toList, fmtInt (goRem r 1000), leafName r p] = _
  unfold filepathJoin
  by_cases hd : baseDir = []
  · subst hd
    have e1 : List.dropWhile (fun e => decide (e = []))
        [([] : Str), "sideloading".toList, fmtInt (goRem r 1000), leafName r p]
        = ["sideloading".toList, fmtInt (goRem r 1000), leafName r p] := by
      simp [List.dropWhile]
    have e2 : List.dropWhile (fun e => decide (e = []))
        [([] : Str), "sideloading".toList, fmtInt (goRem r 1000)]
        = ["sideloading".toList, fmtInt (goRem r 1000)] := by
      simp [List.dropWhile]
    rw [e1, e2]
    simp only [joinSep]
    have := filepathClean_snoc2 "sideloading".toList _ _ (by decide) hb hl
    simpa using this
  · have e1 : List.dropWhile (fun e => decide (e = []))
        [baseDir, "sideloading".toList, fmtInt (goRem r 1000), leafName r p]
        = [baseDir, "sideloading".toList, fmtInt (goRem r 1000), leafName r p] := by
      simp [List.dropWhile, hd]
    have e2 : List.dropWhile (fun e => decide (e = []))
        [baseDir, "sideloading".toList, fmtInt (goRem r 1000)]
        = [baseDir, "sideloading".toList, fmtInt (goRem r 1000)] := by
      simp [List.dropWhile, hd]
    rw [e1, e2]
    simp only [joinSep]
    have := filepathClean_snoc2 (baseDir ++ '/' :: "sideloading".toList) _ _ (by simp) hb hl
    simpa using this

theorem filepathJoin3_ne_nil (baseDir a b : Str) (ha : a ≠ []) :
    filepathJoin [baseDir, a, b] ≠ [] := by
  unfold filepathJoin
  by_cases hd : baseDir = []
  · subst hd
    have e1 : List.dropWhile (fun e => decide (e = [])) [([] : Str), a, b] = [a, b] := by
      simp [List.dropWhile, ha]
    rw [e1]
    exact filepathClean_ne_nil _
  · have e1 : List.dropWhile (fun e => decide (e = [])) [baseDir, a, b] = [baseDir, a, b] := by
      simp [List.dropWhile, hd]
    rw [e1]
    exact filepathClean_ne_nil _

/-- The path of a record under a directory `parent/leaf`. -/
theorem filename_under (ss : diskSideloadStorage) (parent leaf : Str) (index term : Nat)
    (hdir : ss.dir = parent ++ '/' :: leaf) (hp : parent ≠ []) (hl : NormalName leaf) :
    filename ss index term =
      filepathClean (parent ++ '/' :: leaf) ++ '/' :: recordName index term := by
  unfold filename filepathJoin
  have hne : ss.dir ≠ [] := by rw [hdir]; simp
  have e1 : List.dropWhile (fun e => decide (e = [])) [ss.dir, recordName index term]
      = [ss.dir, recordName index term] := by
    simp [List.dropWhile, hne]
  rw [e1]
  simp only [joinSep]
  rw [hdir]
  exact filepathClean_snoc2 parent leaf _ hp hl (recordName_normal index term)

/-- For identifiers that are not negative, equal Go remainders modulo 1000 is
congruence modulo 1000. -/
theorem goRem_eq_iff_congruent (a b : Int) (ha : 0 ≤ a) (hb : 0 ≤ b) :
    goRem a 1000 = goRem b 1000 ↔ a % 1000 = b % 1000 := by
  unfold goRem
  rw [Int.tmod_eq_emod ha (by norm_num), Int.tmod_eq_emod hb (by norm_num)]

/-! ## Facts about a write primitive that never finds the directory -/

theorem putLoop_missingWrite (file : Str) (b : Bytes) (fuel : Nat) :
    ∀ (ss : diskSideloadStorage) (n nw nc : Nat),
      putLoop missingWrite okMkdir file b fuel ss n nw nc = none := by
  induction fuel with
  | zero => intro ss n nw nc; rfl
  | succ fuel ih =>
    intro ss n nw nc
    simp [putLoop, missingWrite, okMkdir, createDirWith, isNotExist, ih]

/-! ## The claims -/

/-- C1: on the disk model (a write into an existing directory stores the
bytes, a read returns the stored bytes), for every state of the directory and
every index, term and contents `b`, `Put` returns, and when it returns no
error the `Get` that follows returns exactly `b` and no error; a second `Put`
of the same key then succeeds too and the `Get` after it returns the second
contents (last writer wins). -/
theorem C1_put_then_get (ss : diskSideloadStorage) (d : Disk) (index term : Nat) (b b2 : Bytes) :
    ∃ r, (∀ fuel, 2 ≤ fuel → Put fuel ss d index term b = some r) ∧
      (r.err = none → Get r.ss r.world index term = (b, none)) ∧
      ∃ r2, (∀ fuel, 2 ≤ fuel → Put fuel r.ss r.world index term b2 = some r2) ∧
        (r.err = none → r2.err = none ∧ Get r2.ss r2.world index term = (b2, none)) := by
  obtain ⟨r, hr, _, hget, _⟩ := Put_then_Get ss d index term b
  obtain ⟨r2, hr2, _, hget2, hok2⟩ := Put_then_Get r.ss r.world index term b2
  refine ⟨r, hr, fun h => (hget h).2, r2, hr2, fun h => ?_⟩
  have h2 : r2.err = none := hok2 (hget h).1
  exact ⟨h2, (hget2 h2).2⟩

/-- C3 as stated fails: with a write primitive that reports a missing
directory twice and then succeeds, `Put` makes three write attempts and two
directory creations (it has not returned after two iterations); with one that
always reports a missing directory, `Put` never returns. -/
theorem C3_put_retry_not_bounded :
    ((PutWith flakyWrite okMkdir 3 ssA 0 7 2 [1]).map
        (fun r => (r.err, r.writes, r.creates)) = some (none, 3, 2)) ∧
      PutWith flakyWrite okMkdir 2 ssA 0 7 2 [1] = none ∧
      ¬ ∃ fuel, (PutWith missingWrite okMkdir fuel ssA 0 7 2 [1]).isSome = true := by
  refine ⟨by decide, by decide, ?_⟩
  rintro ⟨fuel, h⟩
  simp [PutWith, putLoop_missingWrite] at h

/-- C3, amended: for every behaviour of the write primitive and of directory
creation in which a write attempted right after a successful directory
creation does not fail with a missing-directory error, `Put` returns after at
most two write attempts and at most one directory creation. -/
theorem C3_put_bounded_when_creation_helps {σ : Type}
    (write : σ → Str → Bytes → σ × Option GoError) (mkdirAll : σ → Str → σ × Option GoError)
    (ss : diskSideloadStorage) (w : σ) (index term : Nat) (b : Bytes)
    (hhelp : ∀ w1, (mkdirAll w1 ss.dir).2 = none →
      isNotExist (write (mkdirAll w1 ss.dir).1 (filename ss index term) b).2 = false) :
    ∃ r, (∀ fuel, 2 ≤ fuel → PutWith write mkdirAll fuel ss w index term b = some r) ∧
      r.writes ≤ 2 ∧ r.creates ≤ 1 := by
  have key : ∀ k, ∃ r, PutWith write mkdirAll (k + 2) ss w index term b = some r ∧
      r.writes ≤ 2 ∧ r.creates ≤ 1 ∧
      PutWith write mkdirAll 2 ss w index term b = some r := by
    intro k
    unfold PutWith
    simp only [putLoop]
    rcases h1 : write w (filename ss index term) b with ⟨w1, e1⟩
    cases e1 with
    | none => exact ⟨_, rfl, by simp, by simp, rfl⟩
    | some err =>
      simp only
      by_cases hne : isNotExist (some err) = true
      · simp only [hne, Bool.not_true, Bool.false_eq_true, if_false]
        rcases h2 : mkdirAll w1 ss.dir with ⟨w2, e2⟩
        have hc : createDirWith mkdirAll ss w1 =
            ({ ss with dirCreated := ss.dirCreated || e2.isNone }, w2, e2) := by
          simp [createDirWith, h2]
        rw [hc]
        cases e2 with
        | some err2 => exact ⟨_, rfl, by simp, by simp, rfl⟩
        | none =>
          simp only
          have hh := hhelp w1 (by rw [h2])
          rw [h2] at hh
          simp only at hh
          have hfile : filename { ss with dirCreated := ss.dirCreated || (none : Option GoError).isNone }
              index term = filename ss index term := rfl
          rcases h3 : write w2 (filename ss index term) b with ⟨w3, e3⟩
          rw [h3] at hh
          cases e3 with
          | none => exact ⟨_, rfl, by simp, by simp, rfl⟩
          | some err3 =>
            simp only at hh
            simp only [hh, Bool.not_false, if_true]
            exact ⟨_, rfl, by simp, by simp, rfl⟩
      · simp only [hne, Bool.not_false, if_true]
        exact ⟨_, rfl, by simp, by simp, rfl⟩
  obtain ⟨r, _, hw, hc, h2⟩ := key 0
  refine ⟨r, fun fuel hf => ?_, hw, hc⟩
  obtain ⟨k, rfl⟩ : ∃ k, fuel = k + 2 := ⟨fuel - 2, by omega⟩
  obtain ⟨r', hk, _, _, h2'⟩ := key k
  rw [hk, ← h2, h2']

/-- C3, amended, at the disk model: there a directory creation that succeeds
leaves the directory in place, so the write after it does not report a missing
directory. -/
theorem C3_put_bounded_witness :
    (∀ w1, (osMkdirAll w1 ssA.dir).2 = none →
      isNotExist (writeFileSyncing (osMkdirAll w1 ssA.dir).1 (filename ssA 7 2) [1]).2 = false) ∧
    ∃ r, (∀ fuel, 2 ≤ fuel →
        PutWith writeFileSyncing osMkdirAll fuel ssA emptyDisk 7 2 [1] = some r) ∧
      r.writes ≤ 2 ∧ r.creates ≤ 1 :=
  have h : ∀ w1, (osMkdirAll w1 ssA.dir).2 = none →
      isNotExist (writeFileSyncing (osMkdirAll w1 ssA.dir).1 (filename ssA 7 2) [1]).2 = false := by
    intro w1 _
    rcases w1 with ⟨_ | es, _ | e⟩ <;> simp_all [osMkdirAll, writeFileSyncing, isNotExist]
  ⟨h, C3_put_bounded_when_creation_helps writeFileSyncing osMkdirAll ssA emptyDisk 7 2 [1] h⟩

/-- C7: on the disk model, where a write reports a missing directory exactly
when the directory is absent, and when directory creation succeeds: a `Put`
right after a `Clear` that returned no error returns no error, after one
`createDir` call and two write attempts, and the record is readable by `Get`. -/
theorem C7_put_after_clear (ss : diskSideloadStorage) (d : Disk) (index term : Nat) (b : Bytes)
    (hmk : d.mkdirErr = none) (hclear : (Clear ss d).2.2 = none) :
    ∃ r, (∀ fuel, 2 ≤ fuel →
        Put fuel (Clear ss d).1 (Clear ss d).2.1 index term b = some r) ∧
      r.err = none ∧ r.creates = 1 ∧ r.writes = 2 ∧
      Get r.ss r.world index term = (b, none) := by
  cases he : d.entries with
  | none => simp [Clear, deleteDirAndFiles, he] at hclear
  | some es =>
    have hc : Clear ss d = ({ ss with dirCreated := false }, { d with entries := none }, none) := by
      simp [Clear, deleteDirAndFiles, he]
    rw [hc]
    refine ⟨⟨{ ss with dirCreated := true },
        { d with entries := some [(recordName index term, b)] }, none, 2, 1⟩,
        fun fuel hf => ?_, rfl, rfl, rfl, ?_⟩
    · obtain ⟨k, rfl⟩ : ∃ k, fuel = k + 2 := ⟨fuel - 2, by omega⟩
      exact Put_absent_ok _ { d with entries := none } index term b rfl hmk k
    · simp [Get_eq, lookupEntry]

/-- C7 at a directory that holds one record before `Clear`. -/
theorem C7_put_after_clear_witness :
    (Clear ssA ⟨some [(recordName 7 2, [1, 2, 3])], none⟩).2.2 = none ∧
    ∃ r, (∀ fuel, 2 ≤ fuel →
        Put fuel (Clear ssA ⟨some [(recordName 7 2, [1, 2, 3])], none⟩).1
          (Clear ssA ⟨some [(recordName 7 2, [1, 2, 3])], none⟩).2.1 9 2 [4, 5] = some r) ∧
      r.err = none ∧ r.creates = 1 ∧ r.writes = 2 ∧
      Get r.ss r.world 9 2 = ([4, 5], none) :=
  ⟨by decide, C7_put_after_clear ssA ⟨some [(recordName 7 2, [1, 2, 3])], none⟩ 9 2 [4, 5]
    rfl (by decide)⟩

/-- C8: for every index and term whose file does not exist, the directory
being present or not, `Get` and `Purge` both return
`errSideloadedFileNotFound`, `Purge` reports 0 freed bytes, and the disk is
left as it was. -/
theorem C8_missing_record_not_found (ss : diskSideloadStorage) (d : Disk) (index term : Nat)
    (hmiss : fileExists d (recordName index term) = false) :
    Get ss d index term = ([], some GoError.errSideloadedFileNotFound) ∧
      Purge ss d index term = (d, 0, some GoError.errSideloadedFileNotFound) := by
  unfold fileExists at hmiss
  constructor
  · rw [Get_eq]
    cases he : d.entries with
    | none => rfl
    | some es =>
      rw [he] at hmiss
      cases hl : lookupEntry (recordName index term) es with
      | none => simp [hl]
      | some v => simp [hl] at hmiss
  · unfold Purge purgeFile osStat
    rw [filepathBase_filename]
    cases he : d.entries with
    | none => simp [isNotExist]
    | some es =>
      rw [he] at hmiss
      cases hl : lookupEntry (recordName index term) es with
      | none => simp [isNotExist, hl]
      | some v => simp [hl] at hmiss

/-- C8 at an absent directory and at a directory that holds another record. -/
theorem C8_missing_record_witness :
    (fileExists emptyDisk (recordName 7 2) = false ∧
      Get ssA emptyDisk 7 2 = ([], some GoError.errSideloadedFileNotFound) ∧
      Purge ssA emptyDisk 7 2 = (emptyDisk, 0, some GoError.errSideloadedFileNotFound)) ∧
    (fileExists ⟨some [(recordName 9 2, [4, 5])], none⟩ (recordName 7 2) = false ∧
      Get ssA ⟨some [(recordName 9 2, [4, 5])], none⟩ 7 2
        = ([], some GoError.errSideloadedFileNotFound) ∧
      Purge ssA ⟨some [(recordName 9 2, [4, 5])], none⟩ 7 2
        = (⟨some [(recordName 9 2, [4, 5])], none⟩, 0, some GoError.errSideloadedFileNotFound)) :=
  ⟨⟨by decide, C8_missing_record_not_found ssA emptyDisk 7 2 (by decide)⟩,
    ⟨by decide, C8_missing_record_not_found ssA ⟨some [(recordName 9 2, [4, 5])], none⟩ 7 2
      (by decide)⟩⟩

theorem scenarioDisk_written : WrittenByPut scenarioDisk := by
  intro es h
  simp only [scenarioDisk, Option.some.injEq] at h
  subst h
  refine ⟨by decide, ?_⟩
  intro e he
  simp only [List.mem_cons, List.mem_singleton, List.not_mem_nil, or_false] at he
  rcases he with h | h
  · exact ⟨9, 2, by norm_num, by norm_num, by rw [h]⟩
  · exact ⟨7, 2, by norm_num, by norm_num, by rw [h]⟩

theorem TruncateTo_ok_glob_ok (ss : diskSideloadStorage) (d : Disk) (n : Nat)
    (h : (TruncateTo ss d n).2.2 = none) :
    (filepathGlob d (filepathJoin [ss.dir, "i*.t*".toList])).2 = none := by
  cases hg : (filepathGlob d (filepathJoin [ss.dir, "i*.t*".toList])).2 with
  | none => rfl
  | some e =>
    rw [TruncateTo_glob_error ss d n e hg] at h
    simp at h

/-- At a directory written by `Put`, `TruncateTo` returns an error or leaves
the records from `n` on and returns the bytes of the others. -/
theorem TruncateTo_written (ss : diskSideloadStorage) (d : Disk) (n : Nat)
    (hw : WrittenByPut d) :
    (TruncateTo ss d n).2.2 ≠ none ∨
      TruncateTo ss d n = (truncatedDisk d n, bytesBelow d n, none) := by
  obtain ⟨entries, me⟩ := d
  cases entries with
  | none =>
    rcases filepathGlob_absent ss.dir me with h | h
    · left
      cases hg : (filepathGlob ⟨none, me⟩ (filepathJoin [ss.dir, "i*.t*".toList])).2 with
      | none => exact absurd hg h
      | some e => rw [TruncateTo_glob_error ss _ n e hg]; simp
    · right
      rw [TruncateTo_no_match ss _ n h]
      simp [truncatedDisk, bytesBelow, filesOf]
  | some es =>
    rcases filepathGlob_present ss.dir with ⟨e, h⟩ | h | ⟨g, h⟩
    · left
      rw [TruncateTo_glob_error ss _ n e (by rw [h es me])]
      simp
    · rw [TruncateTo_no_match ss _ n (h es me)]
      cases es with
      | nil => right; simp [truncatedDisk, bytesBelow, filesOf]
      | cons x xs => left; simp
    · right
      rw [TruncateTo_records ss es me n g (h es me) (hw es rfl)]
      simp [truncatedDisk, bytesBelow, filesOf]

/-- At a directory written by `Put` whose path has no pattern operator,
`TruncateTo` returns no error. -/
theorem TruncateTo_literal (ss : diskSideloadStorage) (d : Disk) (n : Nat)
    (hw : WrittenByPut d) (hmeta : hasMeta ss.dir = false) :
    TruncateTo ss d n = (truncatedDisk d n, bytesBelow d n, none) := by
  have hglob := filepathGlob_literal ss.dir hmeta d
  obtain ⟨entries, me⟩ := d
  cases entries with
  | none =>
    have h : filepathGlob ⟨none, me⟩ (filepathJoin [ss.dir, "i*.t*".toList]) = ([], none) := by
      rw [hglob]; simp [globDisk]
    rw [TruncateTo_no_match ss _ n h]
    simp [truncatedDisk, bytesBelow, filesOf]
  | some es =>
    rw [globDisk_record] at hglob
    rw [TruncateTo_records ss es me n _ hglob (hw es rfl)]
    simp [truncatedDisk, bytesBelow, filesOf]

/-- C5: for every `n` and every directory whose files were all written by
`Put`, if a first `TruncateTo(n)` returns no error then a second
`TruncateTo(n)` returns zero freed bytes and no error and leaves the disk as
the first call left it, whether or not the first call removed the directory.
The first call does return no error when the path of the directory has no
pattern operator. -/
theorem C5_truncate_idempotent (ss : diskSideloadStorage) (d : Disk) (n : Nat)
    (hw : WrittenByPut d) :
    ((TruncateTo ss d n).2.2 = none →
      TruncateTo ss (TruncateTo ss d n).1 n = ((TruncateTo ss d n).1, 0, none)) ∧
    (hasMeta ss.dir = false → (TruncateTo ss d n).2.2 = none) := by
  constructor
  · intro hok
    have hglob := TruncateTo_ok_glob_ok ss d n hok
    rcases TruncateTo_written ss d n hw with h | h
    · exact absurd hok h
    · obtain ⟨entries, me⟩ := d
      cases entries with
      | none =>
        have h0 : TruncateTo ss ⟨none, me⟩ n = (⟨none, me⟩, 0, none) := by
          rw [h]; simp [truncatedDisk, bytesBelow, filesOf]
        rw [h0]
        exact h0
      | some es =>
        have hrec : AllRecords es := hw es rfl
        rw [h]
        have htd : truncatedDisk ⟨some es, me⟩ n =
            ⟨if es.filter (fun e => decide (n ≤ nameIndex e.1)) = [] then none
              else some (es.filter (fun e => decide (n ≤ nameIndex e.1))), me⟩ := rfl
        rw [htd]
        by_cases hnil : es.filter (fun e => decide (n ≤ nameIndex e.1)) = []
        · simp only [hnil, if_true]
          rw [TruncateTo_no_match ss _ n (filepathGlob_absent_of_present ss.dir es me me hglob)]
        · simp only [hnil, if_false]
          have hes : es ≠ [] := by
            intro he
            apply hnil
            rw [he]
            rfl
          rcases filepathGlob_present ss.dir with ⟨e, hp⟩ | hp | ⟨g, hp⟩
          · rw [hp es me] at hglob
            simp at hglob
          · exfalso
            rw [TruncateTo_no_match ss _ n (hp es me)] at hok
            cases es with
            | nil => exact hes rfl
            | cons x xs => simp at hok
          · rw [TruncateTo_records ss _ me n g (hp _ me) (AllRecords_filter es _ hrec)]
            have h1 : (es.filter (fun e => decide (n ≤ nameIndex e.1))).filter
                (fun e => decide (n ≤ nameIndex e.1))
                = es.filter (fun e => decide (n ≤ nameIndex e.1)) := by
              rw [List.filter_filter]
              apply List.filter_congr
              intro e _
              simp
            have h2 : (es.filter (fun e => decide (n ≤ nameIndex e.1))).filter
                (fun e => decide (nameIndex e.1 < n)) = [] := by
              rw [List.filter_filter, List.filter_eq_nil_iff]
              intro e _
              simp
            rw [h1, h2, if_neg hnil]
            rfl
  · intro hmeta
    rw [TruncateTo_literal ss d n hw hmeta]

/-- C5 at scenario A: at index 9 the first call leaves record `(9,2)`, at
index 10 it removes the directory; both return no error and the second call
changes nothing in both. -/
theorem C5_truncate_idempotent_witness :
    WrittenByPut scenarioDisk ∧
    (((TruncateTo ssA scenarioDisk 9).2.2 = none →
      TruncateTo ssA (TruncateTo ssA scenarioDisk 9).1 9
        = ((TruncateTo ssA scenarioDisk 9).1, 0, none)) ∧
      (hasMeta ssA.dir = false → (TruncateTo ssA scenarioDisk 9).2.2 = none)) ∧
    (((TruncateTo ssA scenarioDisk 10).2.2 = none →
      TruncateTo ssA (TruncateTo ssA scenarioDisk 10).1 10
        = ((TruncateTo ssA scenarioDisk 10).1, 0, none)) ∧
      (hasMeta ssA.dir = false → (TruncateTo ssA scenarioDisk 10).2.2 = none)) ∧
    (TruncateTo ssA scenarioDisk 9).2.2 = none ∧
    TruncateTo ssA (TruncateTo ssA scenarioDisk 9).1 9 = (scenarioDisk2, 0, none) ∧
    (TruncateTo ssA scenarioDisk 10).2.2 = none ∧
    (TruncateTo ssA scenarioDisk 10).1.entries = none ∧
    TruncateTo ssA (TruncateTo ssA scenarioDisk 10).1 10 = (emptyDisk, 0, none) :=
  ⟨scenarioDisk_written, C5_truncate_idempotent ssA scenarioDisk 9 scenarioDisk_written,
    C5_truncate_idempotent ssA scenarioDisk 10 scenarioDisk_written,
    by decide, by decide, by decide, by decide, by decide⟩

theorem matchedNames_size (es : List (Str × Bytes)) (hnd : (es.map Prod.fst).Nodup) :
    ((matchedNames es).map (sizeIn es)).sum =
      ((es.filter (fun e => matchRecordPattern e.1)).map (fun e => e.2.length)).sum := by
  have hp : (matchedNames es).Perm ((es.filter (fun e => matchRecordPattern e.1)).map Prod.fst) := by
    unfold matchedNames
    have h1 := (sortNames_perm (es.map Prod.fst)).filter matchRecordPattern
    rw [List.filter_map] at h1
    exact h1
  rw [(hp.map (sizeIn es)).sum_eq, List.map_map]
  congr 1
  apply List.map_congr_left
  intro e he
  have he2 : e ∈ es := (List.mem_filter.mp he).1
  simp only [Function.comp, sizeIn, lookupEntry_of_mem es hnd e he2]

/-- C6 as stated fails. With record `(9,2)` and a file `foo` in the directory,
`TruncateTo(10)` purges the one matched file, the record, and then cannot
remove the directory: it returns 2 freed bytes and the error of `os.Remove`,
and the directory stays with `foo`. At a directory under `/d/a[b]` that holds
record `(9,2)` only, nothing is matched, nothing purged, and the same error is
returned. -/
theorem C6_directory_not_removed :
    (filepathGlob foreignDisk (filepathJoin [ssA.dir, "i*.t*".toList])).1 = [filename ssA 9 2] ∧
      TruncateTo ssA foreignDisk 10 =
        (⟨some [("foo".toList, [1])], none⟩, 2,
          some (GoError.wrapped (GoError.other 39) "while purging %q".toList ssA.dir)) ∧
      TruncateTo ssB scenarioDisk2 10 =
        (scenarioDisk2, 0,
          some (GoError.wrapped (GoError.other 39) "while purging %q".toList ssB.dir)) := by
  refine ⟨by decide, by decide, by decide⟩

/-- C6, amended: at a directory whose path has no pattern operator and in
which every file that matches `i*.t*` is a record with an index below `n`,
`TruncateTo(n)` purges every matched file and returns the sum of their sizes.
When no other file is left (or the directory was absent already) the
directory does not exist afterwards and no error is returned; when a file
that does not match `i*.t*` is left, the error of `os.Remove` is returned,
wrapped, and the directory stays with the files that do not match. -/
theorem C6_truncate_all_then_remove (ss : diskSideloadStorage) (d : Disk) (n : Nat)
    (hmeta : hasMeta ss.dir = false) (hnd : ((filesOf d).map Prod.fst).Nodup)
    (hall : ∀ e ∈ filesOf d, matchRecordPattern e.1 = true →
      ∃ i t, i < 2 ^ 64 ∧ e.1 = recordName i t ∧ i < n) :
    TruncateTo ss d n =
      if (filesOf d).filter (fun e => !matchRecordPattern e.1) = [] then
        (⟨none, d.mkdirErr⟩,
          (((filesOf d).filter (fun e => matchRecordPattern e.1)).map (fun e => e.2.length)).sum,
          none)
      else
        (⟨some ((filesOf d).filter (fun e => !matchRecordPattern e.1)), d.mkdirErr⟩,
          (((filesOf d).filter (fun e => matchRecordPattern e.1)).map (fun e => e.2.length)).sum,
          some (GoError.wrapped (GoError.other 39) "while purging %q".toList ss.dir)) := by
  have hglob := filepathGlob_literal ss.dir hmeta d
  obtain ⟨entries, me⟩ := d
  cases entries with
  | none =>
    have h : filepathGlob ⟨none, me⟩ (filepathJoin [ss.dir, "i*.t*".toList]) = ([], none) := by
      rw [hglob]; simp [globDisk]
    rw [TruncateTo_no_match ss _ n h]
    simp [filesOf]
  | some es =>
    have hnd2 : (es.map Prod.fst).Nodup := hnd
    have hall2 : ∀ e ∈ es, matchRecordPattern e.1 = true →
        ∃ i t, i < 2 ^ 64 ∧ e.1 = recordName i t ∧ i < n := hall
    rw [globDisk_record] at hglob
    have hgood : ∀ m ∈ matchedNames es, GoodName m ∧ nameIndex m < n := by
      intro m hm
      obtain ⟨hmem, hmatch⟩ := (mem_matchedNames es m).mp hm
      obtain ⟨e, he, rfl⟩ := List.mem_map.mp hmem
      obtain ⟨i, t, hi, hname, hlt⟩ := hall2 e he hmatch
      rw [hname]
      exact ⟨goodName_recordName i t hi, by rw [nameIndex_recordName i t hi]; exact hlt⟩
    have hpurged : purgedNames n (matchedNames es) = matchedNames es := by
      unfold purgedNames
      rw [List.filter_eq_self]
      intro m hm
      simpa using (hgood m hm).2
    have hleft : es.filter (fun e => decide (e.1 ∉ matchedNames es))
        = es.filter (fun e => !matchRecordPattern e.1) := by
      apply List.filter_congr
      intro e he
      have hk : e.1 ∈ es.map Prod.fst := List.mem_map_of_mem Prod.fst he
      by_cases hm : matchRecordPattern e.1 = true
      · have : e.1 ∈ matchedNames es := (mem_matchedNames es e.1).mpr ⟨hk, hm⟩
        simp [hm, this]
      · have : e.1 ∉ matchedNames es := fun h => hm ((mem_matchedNames es e.1).mp h).2
        simp [hm, this]
    rw [TruncateTo_own ss es me n _ hglob hnd2 (fun m hm => (hgood m hm).1), hpurged,
      if_pos rfl, hleft, matchedNames_size es hnd2]
    simp only [filesOf]
    cases hrest : es.filter (fun e => !matchRecordPattern e.1) with
    | nil => simp [osRemove, isNotExist, wrapf]
    | cons x xs => simp [osRemove, isNotExist, wrapf]

/-- C6, amended, at scenario A, second step (with only record `(9,2)` = `"de"`
left, `TruncateTo(10)` returns 2 and no error, the directory no longer exists
and `Get(9,2)` returns not-found), and at the directory that also holds
`foo`. -/
theorem C6_scenario_A_second_step :
    (hasMeta ssA.dir = false ∧ ((filesOf scenarioDisk2).map Prod.fst).Nodup ∧
      ((filesOf foreignDisk).map Prod.fst).Nodup) ∧
    TruncateTo ssA scenarioDisk2 10 =
      (if (filesOf scenarioDisk2).filter (fun e => !matchRecordPattern e.1) = [] then
        (⟨none, scenarioDisk2.mkdirErr⟩,
          (((filesOf scenarioDisk2).filter (fun e => matchRecordPattern e.1)).map
            (fun e => e.2.length)).sum, none)
      else
        (⟨some ((filesOf scenarioDisk2).filter (fun e => !matchRecordPattern e.1)),
            scenarioDisk2.mkdirErr⟩,
          (((filesOf scenarioDisk2).filter (fun e => matchRecordPattern e.1)).map
            (fun e => e.2.length)).sum,
          some (GoError.wrapped (GoError.other 39) "while purging %q".toList ssA.dir))) ∧
    TruncateTo ssA scenarioDisk2 10 = (emptyDisk, 2, none) ∧
    Get ssA emptyDisk 9 2 = ([], some GoError.errSideloadedFileNotFound) ∧
    TruncateTo ssA foreignDisk 10 =
      (if (filesOf foreignDisk).filter (fun e => !matchRecordPattern e.1) = [] then
        (⟨none, foreignDisk.mkdirErr⟩,
          (((filesOf foreignDisk).filter (fun e => matchRecordPattern e.1)).map
            (fun e => e.2.length)).sum, none)
      else
        (⟨some ((filesOf foreignDisk).filter (fun e => !matchRecordPattern e.1)),
            foreignDisk.mkdirErr⟩,
          (((filesOf foreignDisk).filter (fun e => matchRecordPattern e.1)).map
            (fun e => e.2.length)).sum,
          some (GoError.wrapped (GoError.other 39) "while purging %q".toList ssA.dir))) :=
  ⟨⟨by decide, by decide, by decide⟩,
    C6_truncate_all_then_remove ssA scenarioDisk2 10 (by decide) (by decide) (by
      intro e he _
      simp only [filesOf, scenarioDisk2, List.mem_singleton] at he
      exact ⟨9, 2, by norm_num, by rw [he], by norm_num⟩),
    by decide, by decide,
    C6_truncate_all_then_remove ssA foreignDisk 10 (by decide) (by decide) (by
      intro e he hm
      simp only [filesOf, foreignDisk, List.mem_cons, List.mem_singleton, List.not_mem_nil,
        or_false] at he
      rcases he with h | h
      · exact ⟨9, 2, by norm_num, by rw [h], by norm_num⟩
      · rw [h] at hm
        exact absurd hm (by decide))⟩

/-- C10: for every unsigned 64-bit index and every term, the base name of the
path `filename` builds is `i<index>.t<term>`; it matches the pattern `i*.t*`
and begins with `i`, and the text between that `i` and the first dot parses
as a base-10 unsigned 64-bit integer, without error, to exactly `index`. So
the loop of `TruncateTo` at such a file reports no parse error and goes on
according to whether `index` is below the truncation index. -/
theorem C10_index_parse_inverts_filename (ss : diskSideloadStorage) (index term : Nat)
    (hi : index < 2 ^ 64) :
    filepathBase (filename ss index term) = recordName index term ∧
      matchRecordPattern (recordName index term) = true ∧
      (recordName index term).head? = some 'i' ∧
      parseUint (upToDot ((recordName index term).drop 1)) = (index, none) ∧
      ∀ (n : Nat) (rest : List Str) (d : Disk) (k s : Nat),
        truncateLoop ss n (filename ss index term :: rest) d k s =
          if n ≤ index then truncateLoop ss n rest d k s
          else
            match purgeFile ss d (filename ss index term) with
            | (d2, _, some err) =>
              (d2, k, s, wrapf (some err) "while purging %q".toList (filename ss index term))
            | (d2, fileSize, none) => truncateLoop ss n rest d2 (k + 1) (s + fileSize) := by
  refine ⟨filepathBase_filename ss index term, matchRecordPattern_recordName index term, rfl,
    recordName_index index term hi, ?_⟩
  intro n rest d k s
  have h := truncateLoop_step ss n ss.dir (recordName index term) rest d k s
    (goodName_recordName index term hi)
  rw [nameIndex_recordName index term hi] at h
  exact h

/-- C10 at the largest index and term. -/
theorem C10_index_parse_witness :
    2 ^ 64 - 1 < 2 ^ 64 ∧
    parseUint (upToDot ((recordName (2 ^ 64 - 1) (2 ^ 64 - 1)).drop 1)) = (2 ^ 64 - 1, none) ∧
    filepathBase (filename ssA (2 ^ 64 - 1) (2 ^ 64 - 1))
      = "i18446744073709551615.t18446744073709551615".toList :=
  ⟨by norm_num, (C10_index_parse_inverts_filename ssA (2 ^ 64 - 1) (2 ^ 64 - 1) (by norm_num)).2.2.2.1,
    by decide⟩

/-- C9: for every base directory, every pair of replica IDs and every two
distinct range IDs with the same remainder modulo 1000 (the code's
`rangeID%1000`; for IDs that are not negative this is congruence modulo 1000),
the two `Dir()` paths are the same parent `<baseDir>/sideloading/<RangeID mod
1000>` followed by different leaf names `<RangeID>.<ReplicaID>`, and no
`Filename` of one storage equals a `Filename` of the other. -/
theorem C9_congruent_ranges_do_not_collide (baseDir : Str) (r1 r2 p1 p2 : Int)
    (hne : r1 ≠ r2) (hcong : goRem r1 1000 = goRem r2 1000) :
    Dir (newDiskSideloadStorage r1 p1 baseDir).1 =
        filepathJoin [baseDir, "sideloading".toList, fmtInt (goRem r1 1000)]
          ++ '/' :: (fmtInt r1 ++ '.' :: fmtInt p1) ∧
      Dir (newDiskSideloadStorage r2 p2 baseDir).1 =
        filepathJoin [baseDir, "sideloading".toList, fmtInt (goRem r1 1000)]
          ++ '/' :: (fmtInt r2 ++ '.' :: fmtInt p2) ∧
      filepathBase (Dir (newDiskSideloadStorage r1 p1 baseDir).1) = fmtInt r1 ++ '.' :: fmtInt p1 ∧
      filepathBase (Dir (newDiskSideloadStorage r2 p2 baseDir).1) = fmtInt r2 ++ '.' :: fmtInt p2 ∧
      fmtInt r1 ++ '.' :: fmtInt p1 ≠ fmtInt r2 ++ '.' :: fmtInt p2 ∧
      ∀ i t i2 t2 : Nat,
        (Filename (newDiskSideloadStorage r1 p1 baseDir).1 i t).1 ≠
          (Filename (newDiskSideloadStorage r2 p2 baseDir).1 i2 t2).1 := by
  have hd1 := newDiskSideloadStorage_dir r1 p1 baseDir
  have hd2 := newDiskSideloadStorage_dir r2 p2 baseDir
  rw [← hcong] at hd2
  have hl1 := leafName_normal r1 p1
  have hl2 := leafName_normal r2 p2
  have hleaf : leafName r1 p1 ≠ leafName r2 p2 := fun h => hne (leafName_injective r1 r2 p1 p2 h)
  have hpar : filepathJoin [baseDir, "sideloading".toList, fmtInt (goRem r1 1000)] ≠ [] :=
    filepathJoin3_ne_nil _ _ _ (by decide)
  have hbase : ∀ leaf : Str, NormalName leaf →
      filepathBase (filepathJoin [baseDir, "sideloading".toList, fmtInt (goRem r1 1000)]
        ++ '/' :: leaf) = leaf := by
    intro leaf hl
    have := filepathBase_append
      (filepathJoin [baseDir, "sideloading".toList, fmtInt (goRem r1 1000)] ++ ['/']) leaf
      hl.1 hl.2.1 (Or.inr ⟨_, rfl⟩)
    simpa using this
  refine ⟨hd1, hd2, ?_, ?_, hleaf, ?_⟩
  · unfold Dir; rw [hd1]; exact hbase _ hl1
  · unfold Dir; rw [hd2]; exact hbase _ hl2
  · intro i t i2 t2 heq
    unfold Filename at heq
    simp only at heq
    rw [filename_under _ _ _ i t hd1 hpar hl1, filename_under _ _ _ i2 t2 hd2 hpar hl2,
      filepathClean_snoc _ _ hpar hl1, filepathClean_snoc _ _ hpar hl2,
      List.append_assoc, List.append_assoc] at heq
    have h2 := List.append_cancel_left heq
    exact hleaf (append_sep_inj '/' _ _ _ _ hl1.2.1 hl2.2.1 h2)

/-- C9 at ranges 5 and 1005 under `/data`, scenario B. -/
theorem C9_scenario_B :
    ((5 : Int) ≠ 1005 ∧ goRem 5 1000 = goRem 1005 1000) ∧
    (Dir (newDiskSideloadStorage 5 1 "/data".toList).1 = "/data/sideloading/5/5.1".toList ∧
      Dir (newDiskSideloadStorage 1005 1 "/data".toList).1
        = "/data/sideloading/5/1005.1".toList) ∧
    ∀ i t i2 t2 : Nat,
      (Filename (newDiskSideloadStorage 5 1 "/data".toList).1 i t).1 ≠
        (Filename (newDiskSideloadStorage 1005 1 "/data".toList).1 i2 t2).1 :=
  ⟨⟨by decide, by decide⟩, ⟨by decide, by decide⟩,
    (C9_congruent_ranges_do_not_collide "/data".toList 5 1005 1 1 (by decide) (by decide)).2.2.2.2.2⟩

end Sideload
